import Mathlib

/-!
# State-based counter CRDTs and their network simulators

A shallow embedding of `src/main.cpp` (the `P2PNetwork` and `StarNetwork`
class templates) together with the counter types they are instantiated
with.  The header `crdt.h`, which declares `GCounter` and `PNCounter`, is not
among the sources; both counters are therefore modelled from the
specification (sections 3, 4.1 and 4.2).
-/

namespace Crdt

/-- Replica identity: a human-readable name. -/
abbrev Identity := String

/-- Address of a counter object owned by the driver (`CRDT *`, non-null). -/
abbrev Ptr := Nat

/-! ## Counter types (modelled from the specification) -/

/-- Modelled from the spec: the `counts` attribute of `GCounter` (declared in
the missing `crdt.h`), a finite mapping from `Identity` to non-negative
integers.  `dom` is the set of keys present, `val k` is the stored value
(`counts[k] or 0`, so `0` for an absent key). -/
structure Counts where
  dom : Finset Identity
  val : Identity → Nat
  val_eq_zero : ∀ k, k ∉ dom → val k = 0

/-- Modelled from the spec: the empty mapping a counter is created with. -/
def Counts.empty : Counts where
  dom := ∅
  val := fun _ => 0
  val_eq_zero := fun _ _ => rfl

/-- Modelled from the spec: `counts[key] += delta`, creating the entry at 0
first if absent (the effect of `GCounter::increment` in the missing `crdt.h`). -/
def Counts.add (c : Counts) (key : Identity) (delta : Nat) : Counts where
  dom := insert key c.dom
  val := fun k => if k = key then c.val k + delta else c.val k
  val_eq_zero := by
    intro k hk
    have h1 : k ≠ key := fun h => hk (by simp [h])
    have h2 : k ∉ c.dom := fun h => hk (by simp [h])
    simp [h1, c.val_eq_zero k h2]

/-- Modelled from the spec: the effect of `GCounter::merge` (missing
`crdt.h`) on the mapping: for every key present in either mapping,
`counts[key] = max(counts[key] or 0, other.counts[key] or 0)`. -/
def Counts.join (c other : Counts) : Counts where
  dom := c.dom ∪ other.dom
  val := fun k => max (c.val k) (other.val k)
  val_eq_zero := by
    intro k hk
    have h1 : k ∉ c.dom := fun h => hk (by simp [h])
    have h2 : k ∉ other.dom := fun h => hk (by simp [h])
    simp [c.val_eq_zero k h1, other.val_eq_zero k h2]

/-- Modelled from the spec: the sum of all values in the mapping
(`GCounter::query` of the missing `crdt.h`). -/
def Counts.total (c : Counts) : Nat :=
  c.dom.sum c.val

/-- Error conditions of the counter operations (spec section 7). -/
inductive CounterError where
  | InvalidArgument
  deriving DecidableEq, Repr

/-- Modelled from the spec: `GCounter` of the missing `crdt.h`: a name and the
`counts` mapping. -/
structure GCounter where
  name : Identity
  counts : Counts

/-- Modelled from the spec: a `GCounter` is created with a name and an empty
mapping. -/
def GCounter.new (name : Identity) : GCounter :=
  { name := name, counts := Counts.empty }

/-- Modelled from the spec: `GCounter::increment(delta)` (missing `crdt.h`):
fails with `InvalidArgument` if `delta < 0`, otherwise
`counts[self.name] += delta`. -/
def GCounter.increment (c : GCounter) (delta : Int) : Except CounterError GCounter :=
  if delta < 0 then .error .InvalidArgument
  else .ok { c with counts := c.counts.add c.name delta.toNat }

/-- Modelled from the spec: `GCounter::merge(other)` (missing `crdt.h`): the
per-key maximum of the two mappings; the name is not touched. -/
def GCounter.merge (c other : GCounter) : GCounter :=
  { c with counts := c.counts.join other.counts }

/-- Modelled from the spec: `GCounter::query()` (missing `crdt.h`): the sum of
all values in `counts`. -/
def GCounter.query (c : GCounter) : Nat :=
  c.counts.total

/-- Modelled from the spec: `PNCounter` of the missing `crdt.h`: a name and
two inner `GCounter`s, one for the increments and one for the magnitude of
the decrements. -/
structure PNCounter where
  name : Identity
  positive : GCounter
  negative : GCounter

/-- Modelled from the spec: a `PNCounter` is created empty; both inner
counters are keyed by the owner's identity. -/
def PNCounter.new (name : Identity) : PNCounter :=
  { name := name, positive := GCounter.new name, negative := GCounter.new name }

/-- Modelled from the spec: `PNCounter::increment(delta)` (missing `crdt.h`):
delegates to `positive.increment(delta)` when `delta ≥ 0`, else to
`negative.increment(-delta)`. -/
def PNCounter.increment (c : PNCounter) (delta : Int) : Except CounterError PNCounter :=
  if 0 ≤ delta then
    (c.positive.increment delta).map fun p => { c with positive := p }
  else
    (c.negative.increment (-delta)).map fun n => { c with negative := n }

/-- Modelled from the spec: `PNCounter::merge(other)` (missing `crdt.h`): merges
`positive` with `other.positive` and `negative` with `other.negative`
independently. -/
def PNCounter.merge (c other : PNCounter) : PNCounter :=
  { c with positive := c.positive.merge other.positive,
           negative := c.negative.merge other.negative }

/-- Modelled from the spec: `PNCounter::query()` (missing `crdt.h`):
`positive.query() - negative.query()`. -/
def PNCounter.query (c : PNCounter) : Int :=
  (c.positive.query : Int) - (c.negative.query : Int)

/-- A run of local `increment` calls on one `PNCounter`, in order. -/
def PNCounter.incrementAll (c : PNCounter) (deltas : List Int) :
    Except CounterError PNCounter :=
  deltas.foldlM PNCounter.increment c

/-! ## Order structure of the state (join semilattice of per-key maxima) -/

/-- Pointwise order on mappings; its binary join is `Counts.join`. -/
instance : SemilatticeSup Counts where
  le a b := a.dom ⊆ b.dom ∧ ∀ k, a.val k ≤ b.val k
  le_refl _ := ⟨Finset.Subset.refl _, fun _ => Nat.le_refl _⟩
  le_trans a b c h1 h2 := ⟨fun _ hx => h2.1 (h1.1 hx), fun k => Nat.le_trans (h1.2 k) (h2.2 k)⟩
  le_antisymm a b h1 h2 := by
    cases a with
    | mk da va ha =>
      cases b with
      | mk db vb hb =>
        have hd : da = db := Finset.Subset.antisymm h1.1 h2.1
        have hv : va = vb := funext fun k => Nat.le_antisymm (h1.2 k) (h2.2 k)
        subst hd; subst hv; rfl
  sup := Counts.join
  le_sup_left a b := ⟨Finset.subset_union_left, fun k => Nat.le_max_left _ _⟩
  le_sup_right a b := ⟨Finset.subset_union_right, fun k => Nat.le_max_right _ _⟩
  sup_le a b c h1 h2 := ⟨Finset.union_subset h1.1 h2.1, fun k => Nat.max_le.2 ⟨h1.2 k, h2.2 k⟩⟩

/-- The empty mapping is the least state. -/
instance : OrderBot Counts where
  bot := Counts.empty
  bot_le _ := ⟨Finset.empty_subset _, fun _ => Nat.zero_le _⟩

/-! ## The capability interface of the network templates -/

/-- Modelled from the spec: the counter type a network template is
instantiated with (`template <typename CRDT>`, declared in the missing
`crdt.h`).  The networks call `merge(other)` and `query()` on it (`name()` is
only printed); query results (`CRDT::ValueType`) are integers. -/
class CRDT (α : Type) where
  merge : α → α → α
  query : α → Int

instance : CRDT GCounter where
  merge := GCounter.merge
  query := fun c => (c.query : Int)

instance : CRDT PNCounter where
  merge := PNCounter.merge
  query := PNCounter.query

/-- Modelled from the spec: what sections 4.1 and 4.2 state of the counter
types of the missing `crdt.h`: `merge` is the join of a semilattice on the
counter's state, and `query` reads only the state.  `GCounter` (state:
`counts`) and `PNCounter` (state: both inner mappings) are instances. -/
class JoinCRDT (α : Type) (S : outParam Type) [CRDT α] [SemilatticeSup S] where
  state : α → S
  state_merge : ∀ a b : α, state (CRDT.merge a b) = state a ⊔ state b
  query_congr : ∀ a b : α, state a = state b → CRDT.query a = CRDT.query b

/-- The state of a `GCounter` is its `counts` mapping. -/
instance : JoinCRDT GCounter Counts where
  state := GCounter.counts
  state_merge := fun _ _ => rfl
  query_congr := fun a b h => by
    show ((a.counts.total : Nat) : Int) = ((b.counts.total : Nat) : Int)
    rw [h]

/-- The state of a `PNCounter` is the pair of its two mappings. -/
instance : JoinCRDT PNCounter (Counts × Counts) where
  state := fun c => (c.positive.counts, c.negative.counts)
  state_merge := fun _ _ => rfl
  query_congr := fun a b h => by
    have h1 : a.positive.counts = b.positive.counts := congrArg Prod.fst h
    have h2 : a.negative.counts = b.negative.counts := congrArg Prod.snd h
    show ((a.positive.counts.total : Nat) : Int) - ((a.negative.counts.total : Nat) : Int)
      = ((b.positive.counts.total : Nat) : Int) - ((b.negative.counts.total : Nat) : Int)
    rw [h1, h2]

/-- The join of a list of states (the least state above all of them). -/
def joinAll {S : Type} [SemilatticeSup S] [OrderBot S] (l : List S) : S :=
  l.foldr (fun a b => a ⊔ b) ⊥

/-- One replica of the `PNCounter` scenario: created empty under `r.1`, then
the local `increment` calls `r.2` in order. -/
def PNCounter.replica (r : Identity × List Int) : Except CounterError PNCounter :=
  (PNCounter.new r.1).incrementAll r.2

/-- A `PNCounter` owned by `n`: both inner counters carry the name `n` and hold
no key other than `n`. -/
def PNCounter.Owned (c : PNCounter) (n : Identity) : Prop :=
  c.positive.name = n ∧ c.negative.name = n ∧
    c.positive.counts.dom ⊆ {n} ∧ c.negative.counts.dom ⊆ {n}

/-- The three replicas of `simulatePNCountersInP2PNetwork` with the deltas they
receive locally. -/
def pnScenarioReplicas : List (Identity × List Int) :=
  [("A", [-1, 10]), ("B", [2, -3, -12]), ("C", [3])]

/-- How a run of merges between the counters held by the active slots `rs`
changes the store: counters outside the active slots are untouched, every
state only grows, and every bound on the active states is preserved. -/
def StoreStep {α S : Type} [SemilatticeSup S] [CRDT α] [JoinCRDT α S]
    (rs : List (Option Ptr)) (store store' : Ptr → α) : Prop :=
  (∀ q, some q ∉ rs → store' q = store q) ∧
  (∀ q, JoinCRDT.state (store q) ≤ JoinCRDT.state (store' q)) ∧
  (∀ B : S, (∀ q, some q ∈ rs → JoinCRDT.state (store q) ≤ B) →
    ∀ q, some q ∈ rs → JoinCRDT.state (store' q) ≤ B)

/-! ## Networks (`src/main.cpp`) -/

/-- Ways a network call can go wrong: indexing `_replicas` out of range
(undefined behaviour of `std::vector::operator[]`) and a failed `assert`. -/
inductive Fault where
  | outOfRange
  | assertionFailed
  deriving DecidableEq, Repr

/-- `std::unordered_set::emplace`: inserts the pair unless it is already
present.  The set is kept as a duplicate-free list; the list order stands for
the (unspecified) iteration order. -/
def emplace (s : List (Nat × Ptr)) (e : Nat × Ptr) : List (Nat × Ptr) :=
  if e ∈ s then s else s ++ [e]

/-- `P2PNetwork<CRDT>`: the slot vector `_replicas` (a null pointer is `none`),
the set `_offline_set` of (slot index, counter) pairs, and `store`, the counter
objects the pointers refer to (owned by the driver, mutated through the
pointers). -/
structure P2PNetwork (α : Type) where
  replicas : List (Option Ptr)
  offline_set : List (Nat × Ptr)
  store : Ptr → α

/-- `P2PNetwork::add`: `push_back`, returns `size() - 1`. -/
def P2PNetwork.add {α : Type} (net : P2PNetwork α) (crdt : Option Ptr) :
    P2PNetwork α × Nat :=
  let replicas := net.replicas ++ [crdt]
  ({ net with replicas := replicas }, replicas.length - 1)

/-- `P2PNetwork::disconnect`. -/
def P2PNetwork.disconnect {α : Type} (net : P2PNetwork α) (i : Nat) :
    Except Fault (P2PNetwork α) :=
  match net.replicas[i]? with
  | none => .error .outOfRange
  | some none => .ok net
  | some (some replica) =>
    .ok { net with replicas := net.replicas.set i none,
                   offline_set := emplace net.offline_set (i, replica) }

/-- `P2PNetwork::reconnect`: the loop stops at the first entry of the offline
set whose index is `i`; `_replicas[i]` is only read when there is one. -/
def P2PNetwork.reconnect {α : Type} (net : P2PNetwork α) (i : Nat) :
    Except Fault (P2PNetwork α) :=
  match net.offline_set.find? (fun e => e.1 == i) with
  | none => .ok net
  | some it =>
    match net.replicas[i]? with
    | none => .error .outOfRange
    | some (some _) => .error .assertionFailed
    | some none =>
      .ok { net with replicas := net.replicas.set i (some it.2),
                     offline_set := net.offline_set.erase it }

/-- One iteration `j` of the loop of `P2PNetwork::broadcast(i)`:
`other->merge(*replica)` for an active slot `j ≠ i`; the source object is read
through its pointer at that moment. -/
def P2PNetwork.deliver {α : Type} [CRDT α] (replicas : List (Option Ptr)) (i : Nat)
    (replica : Ptr) (store : Ptr → α) (j : Nat) : Ptr → α :=
  if j ≠ i then
    match replicas[j]? with
    | some (some other) =>
      Function.update store other (CRDT.merge (store other) (store replica))
    | _ => store
  else store

/-- `P2PNetwork::broadcast`. -/
def P2PNetwork.broadcast {α : Type} [CRDT α] (net : P2PNetwork α) (i : Nat) :
    Except Fault (P2PNetwork α) :=
  match net.replicas[i]? with
  | none => .error .outOfRange
  | some none => .ok net
  | some (some replica) =>
    let store := (List.range net.replicas.length).foldl
      (P2PNetwork.deliver net.replicas i replica) net.store
    .ok { net with store := store }

/-- `P2PNetwork::broadcastAll`: `broadcast(i)` for `i = 0 .. size-1`. -/
def P2PNetwork.broadcastAll {α : Type} [CRDT α] (net : P2PNetwork α) :
    Except Fault (P2PNetwork α) :=
  (List.range net.replicas.length).foldlM (fun n i => n.broadcast i) net

/-- `P2PNetwork::countPartitions`: the number of distinct `query()` values
over the active slots and the offline set. -/
def P2PNetwork.countPartitions {α : Type} [CRDT α] (net : P2PNetwork α) : Nat :=
  (((net.replicas.filterMap id).map fun p => CRDT.query (net.store p)) ++
    (net.offline_set.map fun e => CRDT.query (net.store e.2))).dedup.length

/-- `StarNetwork<CRDT>`: same members as `P2PNetwork`; slot 0 is the server. -/
structure StarNetwork (α : Type) where
  replicas : List (Option Ptr)
  offline_set : List (Nat × Ptr)
  store : Ptr → α

/-- `StarNetwork::setServerReplica`: creates slot 0 when there is no slot, else
overwrites `_replicas[0]`; returns 0. -/
def StarNetwork.setServerReplica {α : Type} (net : StarNetwork α) (crdt : Option Ptr) :
    StarNetwork α × Nat :=
  if net.replicas.isEmpty then
    ({ net with replicas := net.replicas ++ [crdt] }, 0)
  else
    ({ net with replicas := net.replicas.set 0 crdt }, 0)

/-- `StarNetwork::add`: pushes a null server slot first when there is no slot,
then `push_back`; returns `size() - 1`. -/
def StarNetwork.add {α : Type} (net : StarNetwork α) (crdt : Option Ptr) :
    StarNetwork α × Nat :=
  let replicas0 := if net.replicas.isEmpty then net.replicas ++ [none] else net.replicas
  let replicas := replicas0 ++ [crdt]
  ({ net with replicas := replicas }, replicas.length - 1)

/-- `StarNetwork::disconnect`. -/
def StarNetwork.disconnect {α : Type} (net : StarNetwork α) (i : Nat) :
    Except Fault (StarNetwork α) :=
  match net.replicas[i]? with
  | none => .error .outOfRange
  | some none => .ok net
  | some (some replica) =>
    .ok { net with replicas := net.replicas.set i none,
                   offline_set := emplace net.offline_set (i, replica) }

/-- `StarNetwork::reconnect`. -/
def StarNetwork.reconnect {α : Type} (net : StarNetwork α) (i : Nat) :
    Except Fault (StarNetwork α) :=
  match net.offline_set.find? (fun e => e.1 == i) with
  | none => .ok net
  | some it =>
    match net.replicas[i]? with
    | none => .error .outOfRange
    | some (some _) => .error .assertionFailed
    | some none =>
      .ok { net with replicas := net.replicas.set i (some it.2),
                     offline_set := net.offline_set.erase it }

/-- `StarNetwork::syncWithServer`: both objects are copied first; the server's
copy is merged into the client, then the client's copy into the server; the
final `assert` compares the two `query()` results. -/
def StarNetwork.syncWithServer {α : Type} [CRDT α] (net : StarNetwork α) (i : Nat) :
    Except Fault (StarNetwork α) :=
  if i = 0 then .ok net
  else
    match net.replicas[0]? with
    | none => .error .outOfRange
    | some server =>
      match net.replicas[i]? with
      | none => .error .outOfRange
      | some none => .ok net
      | some (some replica) =>
        match server with
        | none => .ok net
        | some server =>
          let replica_copy_to_send_to_server := net.store replica
          let response_from_server := net.store server
          let store1 := Function.update net.store replica
            (CRDT.merge (net.store replica) response_from_server)
          let store2 := Function.update store1 server
            (CRDT.merge (store1 server) replica_copy_to_send_to_server)
          if CRDT.query (store2 replica) = CRDT.query (store2 server) then
            .ok { net with store := store2 }
          else .error .assertionFailed

/-- `StarNetwork::syncAllReplicasToServer`: `syncWithServer(i)` for
`i = 1 .. size-1`. -/
def StarNetwork.syncAllReplicasToServer {α : Type} [CRDT α] (net : StarNetwork α) :
    Except Fault (StarNetwork α) :=
  ((List.range net.replicas.length).tail).foldlM (fun n i => n.syncWithServer i) net

/-- Conversion of a query result to `unsigned int` (32 bits). -/
def toUnsignedInt (v : Int) : Nat :=
  (v % 4294967296).toNat

/-- `StarNetwork::countPartitions`: as in `P2PNetwork`, but the values are
collected in a set of `unsigned int`. -/
def StarNetwork.countPartitions {α : Type} [CRDT α] (net : StarNetwork α) : Nat :=
  (((net.replicas.filterMap id).map fun p => toUnsignedInt (CRDT.query (net.store p))) ++
    (net.offline_set.map fun e => toUnsignedInt (CRDT.query (net.store e.2)))).dedup.length

/-! ## Call sequences and the slot invariant -/

/-- Number of entries of the offline set recorded for slot `i`. -/
def entriesFor (offline : List (Nat × Ptr)) (i : Nat) : Nat :=
  offline.countP fun e => e.1 == i

/-- Slot `i` exists and is in exactly one of the two states: active (non-null
reference, no entry in the offline set) or offline (null reference, exactly
one entry in the offline set). -/
def SlotOK (replicas : List (Option Ptr)) (offline : List (Nat × Ptr)) (i : Nat) : Prop :=
  match replicas[i]? with
  | some (some _) => entriesFor offline i = 0
  | some none => entriesFor offline i = 1
  | none => False

instance (replicas : List (Option Ptr)) (offline : List (Nat × Ptr)) (i : Nat) :
    Decidable (SlotOK replicas offline i) := by
  unfold SlotOK
  split <;> infer_instance

/-- A default-constructed `P2PNetwork` over the driver's counter objects. -/
def P2PNetwork.empty {α : Type} (store : Ptr → α) : P2PNetwork α :=
  { replicas := [], offline_set := [], store := store }

/-- The calls a driver can make on a `P2PNetwork`; `add` takes a non-null
counter reference. -/
inductive P2POp where
  | add (crdt : Ptr)
  | disconnect (i : Nat)
  | reconnect (i : Nat)
  | broadcast (i : Nat)
  | broadcastAll
  deriving DecidableEq, Repr

/-- One call on a `P2PNetwork`. -/
def P2PNetwork.step {α : Type} [CRDT α] (net : P2PNetwork α) :
    P2POp → Except Fault (P2PNetwork α)
  | .add crdt => .ok (net.add (some crdt)).1
  | .disconnect i => net.disconnect i
  | .reconnect i => net.reconnect i
  | .broadcast i => net.broadcast i
  | .broadcastAll => net.broadcastAll

/-- A sequence of calls on a `P2PNetwork`, in order. -/
def P2PNetwork.run {α : Type} [CRDT α] (net : P2PNetwork α) (ops : List P2POp) :
    Except Fault (P2PNetwork α) :=
  ops.foldlM P2PNetwork.step net

/-- The index argument of a call is a slot index of a network with `size`
slots. -/
def P2POp.valid (size : Nat) : P2POp → Bool
  | .add _ => true
  | .disconnect i => decide (i < size)
  | .reconnect i => decide (i < size)
  | .broadcast i => decide (i < size)
  | .broadcastAll => true

/-- Number of slots after a call on a network with `size` slots. -/
def P2POp.sizeAfter (size : Nat) : P2POp → Nat
  | .add _ => size + 1
  | _ => size

/-- Every call of the sequence uses a valid index for the number of slots at
the time of the call, starting from `size` slots. -/
def P2POp.validCalls (size : Nat) : List P2POp → Bool
  | [] => true
  | op :: ops => op.valid size && P2POp.validCalls (op.sizeAfter size) ops

/-- The slot invariant of a `P2PNetwork`: every slot is in exactly one of the
two states, and the offline set has entries for existing slots only. -/
def P2PNetwork.SlotsConsistent {α : Type} (net : P2PNetwork α) : Prop :=
  (∀ i, i < net.replicas.length → SlotOK net.replicas net.offline_set i) ∧
  (∀ e ∈ net.offline_set, e.1 < net.replicas.length)

/-- A default-constructed `StarNetwork` over the driver's counter objects. -/
def StarNetwork.empty {α : Type} (store : Ptr → α) : StarNetwork α :=
  { replicas := [], offline_set := [], store := store }

/-- The calls a driver can make on a `StarNetwork`; `setServerReplica` and `add`
take a non-null counter reference. -/
inductive StarOp where
  | setServerReplica (crdt : Ptr)
  | add (crdt : Ptr)
  | disconnect (i : Nat)
  | reconnect (i : Nat)
  | syncWithServer (i : Nat)
  | syncAllReplicasToServer
  deriving DecidableEq, Repr

/-- One call on a `StarNetwork`. -/
def StarNetwork.step {α : Type} [CRDT α] (net : StarNetwork α) :
    StarOp → Except Fault (StarNetwork α)
  | .setServerReplica crdt => .ok (net.setServerReplica (some crdt)).1
  | .add crdt => .ok (net.add (some crdt)).1
  | .disconnect i => net.disconnect i
  | .reconnect i => net.reconnect i
  | .syncWithServer i => net.syncWithServer i
  | .syncAllReplicasToServer => net.syncAllReplicasToServer

/-- A sequence of calls on a `StarNetwork`, in order. -/
def StarNetwork.run {α : Type} [CRDT α] (net : StarNetwork α) (ops : List StarOp) :
    Except Fault (StarNetwork α) :=
  ops.foldlM StarNetwork.step net

/-- The call is `setServerReplica`. -/
def StarOp.isSetServerReplica : StarOp → Bool
  | .setServerReplica _ => true
  | _ => false

/-- The call uses a valid slot index, and it is not a `setServerReplica` made
while slot 0 has an entry in the offline set. -/
def StarOp.admissible (replicas : List (Option Ptr)) (offline : List (Nat × Ptr)) :
    StarOp → Bool
  | .setServerReplica _ => decide (entriesFor offline 0 = 0)
  | .add _ => true
  | .disconnect i => decide (i < replicas.length)
  | .reconnect i => decide (i < replicas.length)
  | .syncWithServer i => decide (i < replicas.length)
  | .syncAllReplicasToServer => true

/-- Every call of the sequence is admissible in the network state in which it
is made (nothing is required of the calls after a failed one). -/
def StarNetwork.admissibleRun {α : Type} [CRDT α] (net : StarNetwork α) :
    List StarOp → Bool
  | [] => true
  | op :: ops =>
    op.admissible net.replicas net.offline_set &&
      match net.step op with
      | .ok net' => StarNetwork.admissibleRun net' ops
      | .error _ => true

/-- The slot invariant of a `StarNetwork`.  Every client slot is in exactly one
of the two states; so is slot 0 once a server has been set (`serverSet`), and
until then it is absent or a null placeholder without entry in the offline
set; the offline set has entries for existing slots only. -/
def StarNetwork.SlotsConsistent {α : Type} (net : StarNetwork α) (serverSet : Bool) : Prop :=
  (∀ i, i < net.replicas.length → (1 ≤ i ∨ serverSet = true) →
    SlotOK net.replicas net.offline_set i) ∧
  (∀ e ∈ net.offline_set, e.1 < net.replicas.length) ∧
  (serverSet = true → 0 < net.replicas.length) ∧
  (serverSet = false → (net.replicas = [] ∨ net.replicas[0]? = some none) ∧
    entriesFor net.offline_set 0 = 0)

/-- The network calls of `simulateGCountersInP2PNetwork`, with the counters
`a`, `b`, `c` at addresses 0, 1, 2. -/
def p2pScenarioCalls : List P2POp :=
  [.add 0, .add 1, .add 2, .broadcast 0, .broadcastAll, .disconnect 1, .broadcastAll,
   .reconnect 1, .broadcastAll]

/-- The network calls of `simulateGCountersInStarNetwork`, with the counters
`server`, `a`, `b`, `c` at addresses 0, 1, 2, 3. -/
def starScenarioCalls : List StarOp :=
  [.setServerReplica 0, .add 1, .add 2, .add 3, .disconnect 0, .syncWithServer 1,
   .reconnect 0, .syncAllReplicasToServer, .syncAllReplicasToServer, .disconnect 2,
   .syncAllReplicasToServer, .reconnect 2, .syncAllReplicasToServer, .syncWithServer 1,
   .syncAllReplicasToServer]

/-! ## Concrete networks used to instantiate the theorems -/

/-- Counter objects of the example networks: object `p` is named after its
address and holds `p + 1` under its own key. -/
def exampleStore (p : Ptr) : GCounter :=
  let name := if p = 0 then "SERVER" else if p = 1 then "A" else if p = 2 then "B" else "C"
  { name := name, counts := Counts.empty.add name (p + 1) }

/-- A peer-to-peer network with slots 0, 1 and 3 active and slot 2 offline. -/
def p2pExample : P2PNetwork GCounter :=
  { replicas := [some 0, some 1, none, some 3], offline_set := [(2, 2)], store := exampleStore }

/-- A star network whose server (slot 0) and clients 1 and 3 are active and
whose client 2 is offline. -/
def starExample : StarNetwork GCounter :=
  { replicas := [some 0, some 1, none, some 3], offline_set := [(2, 2)], store := exampleStore }

/-- A star network whose server is down. -/
def starServerDown : StarNetwork GCounter :=
  { replicas := [none, some 1, some 2, some 3], offline_set := [(0, 0)], store := exampleStore }

/-! ## Calls on a single `GCounter` -/

/-- The two mutating calls on a `GCounter`. -/
inductive GCounterCall where
  | increment (delta : Int)
  | merge (other : GCounter)

/-- One call on a `GCounter`. -/
def GCounter.call (c : GCounter) : GCounterCall → Except CounterError GCounter
  | .increment delta => c.increment delta
  | .merge other => .ok (c.merge other)

/-- A sequence of calls on a `GCounter`, in order. -/
def GCounter.calls (c : GCounter) (l : List GCounterCall) : Except CounterError GCounter :=
  l.foldlM GCounter.call c

/-- The call is a `merge` or an `increment` with a non-negative delta. -/
def GCounterCall.nonNegative : GCounterCall → Bool
  | .increment delta => decide (0 ≤ delta)
  | .merge _ => true

/-- A sample call sequence on a `GCounter`. -/
def sampleGCounterCalls : List GCounterCall :=
  [.increment 1, .merge { name := "B", counts := (Counts.empty.add "B" 2).add "A" 5 },
   .increment 0, .increment 10, .merge (GCounter.new "C")]

/-- The call is `add`. -/
def P2POp.isAdd : P2POp → Bool
  | .add _ => true
  | _ => false

/-- The call is `add`. -/
def StarOp.isAdd : StarOp → Bool
  | .add _ => true
  | _ => false

/-! ## The sequential exchanges compared with `syncWithServer` -/

/-- The exchange without snapshots, client first: `client.merge(server)` and
then `server.merge(client)`, each reading the other object as it is at that
moment. -/
def sequentialExchangeClientFirst {α : Type} [CRDT α] (store : Ptr → α)
    (client server : Ptr) : Ptr → α :=
  let store1 := Function.update store client (CRDT.merge (store client) (store server))
  Function.update store1 server (CRDT.merge (store1 server) (store1 client))

/-- The exchange without snapshots, server first: `server.merge(client)` and
then `client.merge(server)`. -/
def sequentialExchangeServerFirst {α : Type} [CRDT α] (store : Ptr → α)
    (client server : Ptr) : Ptr → α :=
  let store1 := Function.update store server (CRDT.merge (store server) (store client))
  Function.update store1 client (CRDT.merge (store1 client) (store1 server))

/-! ## Query values that differ by a multiple of `2^32` -/

/-- Counter objects after convergence: objects 0, 1 and 3 keep their names and
all hold `A ↦ 1, B ↦ 2, C ↦ 3`; object 2 is as in `exampleStore`. -/
def convergedStore (p : Ptr) : GCounter :=
  if p = 2 then exampleStore 2
  else { name := (exampleStore p).name,
         counts := ((Counts.empty.add "A" 1).add "B" 2).add "C" 3 }

/-- A peer-to-peer network whose active replicas (slots 0, 1, 3) have converged;
slot 2 is offline. -/
def convergedP2P : P2PNetwork GCounter :=
  { replicas := [some 0, some 1, none, some 3], offline_set := [(2, 2)],
    store := convergedStore }

/-- A star network whose server and active clients (slots 1, 3) have converged;
client 2 is offline. -/
def convergedStar : StarNetwork GCounter :=
  { replicas := [some 0, some 1, none, some 3], offline_set := [(2, 2)],
    store := convergedStore }

/-! ## The driver `simulatePNCountersInP2PNetwork` -/

/-- What can go wrong in a driver: a counter call throws or a network call
faults. -/
inductive DriverFault where
  | counter (e : CounterError)
  | network (f : Fault)
  deriving DecidableEq, Repr

/-- A statement of a `PNCounter` driver: a network call, or `increment(delta)`
on the counter object at address `p`. -/
inductive PNDriverOp where
  | call (op : P2POp)
  | increment (p : Ptr) (delta : Int)
  deriving DecidableEq, Repr

/-- One driver statement.  The counters are owned by the driver, so an
increment changes the object the network refers to, whether it is active or
offline. -/
def PNDriverOp.step (net : P2PNetwork PNCounter) :
    PNDriverOp → Except DriverFault (P2PNetwork PNCounter)
  | .call op =>
    match net.step op with
    | .ok net' => .ok net'
    | .error f => .error (.network f)
  | .increment p delta =>
    match (net.store p).increment delta with
    | .ok c => .ok ⟨net.replicas, net.offline_set, Function.update net.store p c⟩
    | .error e => .error (.counter e)

/-- The counter objects `a_counter("A")`, `b_counter("B")`, `c_counter("C")` of
the driver, at addresses 0, 1, 2, as constructed. -/
def pnStore (p : Ptr) : PNCounter :=
  PNCounter.new (if p = 0 then "A" else if p = 1 then "B" else "C")

/-- Runs driver statements on an empty `P2PNetwork<PNCounter>` and observes
what the driver asserts on: the `query()` of `a_counter`, `b_counter`,
`c_counter` and `countPartitions()`. -/
def pnObserve (ops : List PNDriverOp) : Option (List Int × Nat) :=
  match ops.foldlM (fun net op => PNDriverOp.step net op) (P2PNetwork.empty pnStore) with
  | .ok net =>
    some ([CRDT.query (net.store 0), CRDT.query (net.store 1), CRDT.query (net.store 2)],
      net.countPartitions)
  | .error _ => none

/-- The statements of `simulatePNCountersInP2PNetwork` (`src/main.cpp`), in
order, with `a = 0`, `b = 1`, `c = 2`. -/
def simulatePNCountersInP2PNetwork : List PNDriverOp :=
  [.call (.add 0), .call (.add 1), .call (.add 2),
   .increment 0 (-1), .increment 1 2, .increment 2 3,
   .call (.broadcast 0), .call .broadcastAll,
   .call (.disconnect 1), .increment 0 10, .call .broadcastAll,
   .increment 1 (-3),
   .call (.reconnect 1), .call .broadcastAll,
   .increment 1 (-12), .call (.broadcast 1)]

/-- The scenario in the words of the specification: A−1, B+2, C+3;
`broadcastAll()`; disconnect B, A+10; `broadcastAll()`; reconnect B,
`broadcastAll()`. -/
def pnScenarioAsStated : List PNDriverOp :=
  [.call (.add 0), .call (.add 1), .call (.add 2),
   .increment 0 (-1), .increment 1 2, .increment 2 3,
   .call .broadcastAll,
   .call (.disconnect 1), .increment 0 10, .call .broadcastAll,
   .call (.reconnect 1), .call .broadcastAll]

/-- The scenario of the specification with the driver's `b_counter.increment(-3)`
before `reconnect(b)`. -/
def pnScenarioWithDecrement : List PNDriverOp :=
  [.call (.add 0), .call (.add 1), .call (.add 2),
   .increment 0 (-1), .increment 1 2, .increment 2 3,
   .call .broadcastAll,
   .call (.disconnect 1), .increment 0 10, .call .broadcastAll,
   .increment 1 (-3),
   .call (.reconnect 1), .call .broadcastAll]

/-! ## One synchronisation round -/

/-- Counter objects of a star network before a round: the server (object 0)
is empty and objects 1, 2, 3 (`A`, `B`, `C`) hold 1, 2, 3 under their own
key, so the queries are 0, 1, 2, 3. -/
def roundStore (p : Ptr) : GCounter :=
  if p = 0 then GCounter.new "SERVER"
  else { name := (exampleStore p).name, counts := Counts.empty.add (exampleStore p).name p }

/-- A star network with the server and the three clients online. -/
def roundStar : StarNetwork GCounter :=
  { replicas := [some 0, some 1, some 2, some 3], offline_set := [], store := roundStore }

/-! ## Basic facts about `Counts` -/

theorem Counts.ext_iff_fields {a b : Counts} :
    a = b ↔ a.dom = b.dom ∧ a.val = b.val := by
  constructor
  · rintro rfl; exact ⟨rfl, rfl⟩
  · rintro ⟨h1, h2⟩
    cases a; cases b
    simp only at h1 h2
    subst h1; subst h2
    rfl

theorem Counts.join_comm (a b : Counts) : a.join b = b.join a := by
  rw [Counts.ext_iff_fields]
  refine ⟨Finset.union_comm _ _, ?_⟩
  funext k
  exact max_comm _ _

theorem Counts.join_assoc (a b c : Counts) :
    (a.join b).join c = a.join (b.join c) := by
  rw [Counts.ext_iff_fields]
  refine ⟨Finset.union_assoc _ _ _, ?_⟩
  funext k
  exact max_assoc _ _ _

theorem Counts.join_self (a : Counts) : a.join a = a := by
  rw [Counts.ext_iff_fields]
  refine ⟨Finset.union_self _, ?_⟩
  funext k
  exact max_self _

/-! ## Totals of mappings -/

theorem Counts.total_add (c : Counts) (key : Identity) (delta : Nat) :
    (c.add key delta).total = c.total + delta := by
  unfold Counts.total Counts.add
  simp only
  by_cases hk : key ∈ c.dom
  · rw [Finset.insert_eq_of_mem hk]
    have h : ∀ k ∈ c.dom, (if k = key then c.val k + delta else c.val k)
        = c.val k + (if k = key then delta else 0) := by
      intro k _
      by_cases hkk : k = key <;> simp [hkk]
    rw [Finset.sum_congr rfl h, Finset.sum_add_distrib, Finset.sum_ite_eq' c.dom key]
    simp [hk]
  · rw [Finset.sum_insert hk]
    have h : ∀ k ∈ c.dom, (if k = key then c.val k + delta else c.val k) = c.val k := by
      intro k hkd
      have hne : k ≠ key := fun e => hk (e ▸ hkd)
      simp [hne]
    rw [Finset.sum_congr rfl h]
    simp [c.val_eq_zero key hk, Nat.add_comm]

theorem Counts.total_join_of_disjoint (a b : Counts) (h : Disjoint a.dom b.dom) :
    (a.join b).total = a.total + b.total := by
  unfold Counts.total Counts.join
  simp only
  rw [Finset.sum_union h]
  congr 1
  · apply Finset.sum_congr rfl
    intro k hk
    have hkb : k ∉ b.dom := Finset.disjoint_left.1 h hk
    simp [b.val_eq_zero k hkb]
  · apply Finset.sum_congr rfl
    intro k hk
    have hka : k ∉ a.dom := Finset.disjoint_right.1 h hk
    simp [a.val_eq_zero k hka]


/-! ## Joins of lists of states -/

theorem joinAll_le_iff {S : Type} [SemilatticeSup S] [OrderBot S] (l : List S) (x : S) :
    joinAll l ≤ x ↔ ∀ a ∈ l, a ≤ x := by
  induction l with
  | nil => simp [joinAll]
  | cons a l ih =>
    have h : joinAll (a :: l) = a ⊔ joinAll l := rfl
    rw [h, sup_le_iff, ih]
    simp

theorem le_joinAll {S : Type} [SemilatticeSup S] [OrderBot S] {l : List S} {a : S}
    (h : a ∈ l) : a ≤ joinAll l :=
  (joinAll_le_iff l (joinAll l)).1 (le_refl _) a h

theorem Counts.dom_joinAll_subset (l : List Counts) (s : Finset Identity)
    (h : ∀ c ∈ l, c.dom ⊆ s) : (joinAll l).dom ⊆ s := by
  induction l with
  | nil => exact Finset.empty_subset _
  | cons a l ih =>
    have e : (joinAll (a :: l)).dom = a.dom ∪ (joinAll l).dom := rfl
    rw [e]
    exact Finset.union_subset (h a (List.mem_cons_self _ _))
      (ih fun c hc => h c (List.mem_cons_of_mem _ hc))

/-- The total of a join of mappings with pairwise distinct owners, each
holding at most its owner's key, is the sum of the totals. -/
theorem Counts.total_joinAll (l : List (Identity × Counts))
    (hn : (l.map Prod.fst).Nodup) (hd : ∀ e ∈ l, e.2.dom ⊆ {e.1}) :
    (joinAll (l.map Prod.snd)).total = (l.map fun e => e.2.total).sum := by
  induction l with
  | nil => rfl
  | cons e l ih =>
    have hn' : e.1 ∉ l.map Prod.fst ∧ (l.map Prod.fst).Nodup := by
      simpa using hn
    have e1 : joinAll ((e :: l).map Prod.snd) = e.2.join (joinAll (l.map Prod.snd)) := rfl
    have hsub : (joinAll (l.map Prod.snd)).dom ⊆ (l.map Prod.fst).toFinset := by
      apply Counts.dom_joinAll_subset
      intro c hc
      obtain ⟨e', he', rfl⟩ := List.mem_map.1 hc
      intro k hk
      have hk' := hd e' (List.mem_cons_of_mem _ he') hk
      rw [Finset.mem_singleton] at hk'
      rw [List.mem_toFinset, hk']
      exact List.mem_map_of_mem _ he'
    have hdisj : Disjoint e.2.dom (joinAll (l.map Prod.snd)).dom := by
      rw [Finset.disjoint_left]
      intro k hk hk2
      have hk' := hd e (List.mem_cons_self _ _) hk
      rw [Finset.mem_singleton] at hk'
      have := hsub hk2
      rw [List.mem_toFinset, hk'] at this
      exact hn'.1 this
    rw [e1, Counts.total_join_of_disjoint _ _ hdisj,
      ih hn'.2 fun e' he' => hd e' (List.mem_cons_of_mem _ he')]
    simp


/-! ## `PNCounter`: local increments and merges -/

theorem PNCounter.increment_spec (c : PNCounter) (n : Identity) (d : Int)
    (h : c.Owned n) :
    ∃ c', c.increment d = .ok c' ∧ c'.Owned n ∧ c'.query = c.query + d := by
  obtain ⟨hp, hn, hpd, hnd⟩ := h
  by_cases hd : 0 ≤ d
  · refine ⟨{ c with positive :=
        { c.positive with counts := c.positive.counts.add c.positive.name d.toNat } }, ?_, ?_, ?_⟩
    · have hlt : ¬ d < 0 := not_lt.2 hd
      simp [PNCounter.increment, GCounter.increment, hd, hlt, Except.map]
    · refine ⟨hp, hn, ?_, hnd⟩
      show insert c.positive.name c.positive.counts.dom ⊆ {n}
      rw [hp]
      exact Finset.insert_subset (Finset.mem_singleton_self n) hpd
    · show ((Counts.total (c.positive.counts.add c.positive.name d.toNat) : Nat) : Int)
          - (c.negative.counts.total : Int)
          = ((c.positive.counts.total : Nat) : Int) - (c.negative.counts.total : Int) + d
      rw [Counts.total_add]
      have := Int.toNat_of_nonneg hd
      push_cast
      omega
  · have hd' : 0 ≤ -d := by omega
    refine ⟨{ c with negative :=
        { c.negative with counts := c.negative.counts.add c.negative.name (-d).toNat } }, ?_, ?_, ?_⟩
    · have hlt : ¬ (-d < 0) := not_lt.2 hd'
      have hlt' : ¬ (0 < d) := by omega
      simp [PNCounter.increment, GCounter.increment, hd, hlt', Except.map]
    · refine ⟨hp, hn, hpd, ?_⟩
      show insert c.negative.name c.negative.counts.dom ⊆ {n}
      rw [hn]
      exact Finset.insert_subset (Finset.mem_singleton_self n) hnd
    · show ((c.positive.counts.total : Nat) : Int)
          - ((Counts.total (c.negative.counts.add c.negative.name (-d).toNat) : Nat) : Int)
          = ((c.positive.counts.total : Nat) : Int) - (c.negative.counts.total : Int) + d
      rw [Counts.total_add]
      have := Int.toNat_of_nonneg hd'
      push_cast
      omega

theorem PNCounter.incrementAll_spec (ds : List Int) (c : PNCounter) (n : Identity)
    (h : c.Owned n) :
    ∃ c', c.incrementAll ds = .ok c' ∧ c'.Owned n ∧ c'.query = c.query + ds.sum := by
  induction ds generalizing c with
  | nil => exact ⟨c, rfl, h, by simp⟩
  | cons d ds ih =>
    obtain ⟨c1, h1, ho1, hq1⟩ := PNCounter.increment_spec c n d h
    obtain ⟨c2, h2, ho2, hq2⟩ := ih c1 ho1
    refine ⟨c2, ?_, ho2, ?_⟩
    · unfold PNCounter.incrementAll at h2 ⊢
      rw [List.foldlM_cons, h1]
      exact h2
    · rw [hq2, hq1, List.sum_cons]
      omega

theorem PNCounter.replica_spec (r : Identity × List Int) :
    ∃ f, PNCounter.replica r = .ok f ∧ f.Owned r.1 ∧ f.query = r.2.sum := by
  have h0 : (PNCounter.new r.1).Owned r.1 :=
    ⟨rfl, rfl, Finset.empty_subset _, Finset.empty_subset _⟩
  obtain ⟨f, h1, h2, h3⟩ := PNCounter.incrementAll_spec r.2 (PNCounter.new r.1) r.1 h0
  refine ⟨f, h1, h2, ?_⟩
  rw [h3]
  show ((Counts.empty.total : Nat) : Int) - ((Counts.empty.total : Nat) : Int) + r.2.sum = r.2.sum
  simp [Counts.total, Counts.empty]

theorem PNCounter.foldl_merge_positive (order : List PNCounter) (t : PNCounter) :
    (order.foldl PNCounter.merge t).positive.counts
      = t.positive.counts ⊔ joinAll (order.map fun f => f.positive.counts) := by
  induction order generalizing t with
  | nil => simp [joinAll]
  | cons a l ih =>
    rw [List.foldl_cons, ih]
    show (t.positive.counts ⊔ a.positive.counts) ⊔ _ = t.positive.counts ⊔ (a.positive.counts ⊔ _)
    exact sup_assoc _ _ _

theorem PNCounter.foldl_merge_negative (order : List PNCounter) (t : PNCounter) :
    (order.foldl PNCounter.merge t).negative.counts
      = t.negative.counts ⊔ joinAll (order.map fun f => f.negative.counts) := by
  induction order generalizing t with
  | nil => simp [joinAll]
  | cons a l ih =>
    rw [List.foldl_cons, ih]
    show (t.negative.counts ⊔ a.negative.counts) ⊔ _ = t.negative.counts ⊔ (a.negative.counts ⊔ _)
    exact sup_assoc _ _ _

/-- Merging into `t` every element of `order` gives the join of `finals`,
whenever `t` and `order` together range over exactly the elements of `finals`. -/
theorem sup_joinAll_eq {S A : Type} [SemilatticeSup S] [OrderBot S] (g : A → S)
    (finals order : List A) (t : A) (ht : t ∈ finals)
    (h1 : ∀ f ∈ order, f ∈ finals) (h2 : ∀ f ∈ finals, f = t ∨ f ∈ order) :
    g t ⊔ joinAll (order.map g) = joinAll (finals.map g) := by
  apply le_antisymm
  · apply sup_le
    · exact le_joinAll (List.mem_map_of_mem g ht)
    · rw [joinAll_le_iff]
      intro a ha
      obtain ⟨f, hf, rfl⟩ := List.mem_map.1 ha
      exact le_joinAll (List.mem_map_of_mem g (h1 f hf))
  · rw [joinAll_le_iff]
    intro a ha
    obtain ⟨f, hf, rfl⟩ := List.mem_map.1 ha
    rcases h2 f hf with rfl | hfo
    · exact le_sup_left
    · exact le_trans (le_joinAll (List.mem_map_of_mem g hfo)) le_sup_right


/-- C1. `GCounter.merge` is a semilattice join on the `counts` mapping:
merging `B` into `A` gives the same mapping as merging `A` into `B`
(commutative); merging `B` then `C` into `A` gives the same mapping as
merging into `A` the result of merging `C` into `B` (associative); merging
`A` into itself leaves `A` unchanged (idempotent). -/
theorem GCounter.merge_semilattice (A B C : GCounter) :
    (A.merge B).counts = (B.merge A).counts ∧
    ((A.merge B).merge C).counts = (A.merge (B.merge C)).counts ∧
    A.merge A = A := by
  refine ⟨Counts.join_comm _ _, Counts.join_assoc _ _ _, ?_⟩
  cases A
  simp [GCounter.merge, Counts.join_self]

theorem forall₂_map_eq {A B C : Type} {R : A → B → Prop} {g1 : A → C} {g2 : B → C}
    {l1 : List A} {l2 : List B} (h : List.Forall₂ R l1 l2)
    (hg : ∀ a b, R a b → g1 a = g2 b) : l1.map g1 = l2.map g2 := by
  induction h with
  | nil => rfl
  | cons hab _ ih => simp [hg _ _ hab, ih]

theorem forall₂_of_mem_right {A B : Type} {R : A → B → Prop} {l1 : List A} {l2 : List B}
    (h : List.Forall₂ R l1 l2) {b : B} (hb : b ∈ l2) : ∃ a ∈ l1, R a b := by
  induction h with
  | nil => cases hb
  | cons hab _ ih =>
    rcases List.mem_cons.1 hb with rfl | hb'
    · exact ⟨_, List.mem_cons_self _ _, hab⟩
    · obtain ⟨a, ha, hr⟩ := ih hb'
      exact ⟨a, List.mem_cons_of_mem _ ha, hr⟩

theorem PNCounter.sum_query (l : List PNCounter) :
    (((l.map fun f => f.positive.counts.total).sum : Nat) : Int)
      - (((l.map fun f => f.negative.counts.total).sum : Nat) : Int)
      = (l.map PNCounter.query).sum := by
  induction l with
  | nil => rfl
  | cons a l ih =>
    simp only [List.map_cons, List.sum_cons]
    rw [← ih]
    show _ = ((a.positive.counts.total : Nat) : Int) - ((a.negative.counts.total : Nat) : Int) + _
    push_cast
    omega

theorem PNCounter.replicas_exist (rs : List (Identity × List Int)) :
    ∃ finals : List PNCounter,
      List.Forall₂ (fun r f => PNCounter.replica r = .ok f ∧ f.Owned r.1 ∧ f.query = r.2.sum)
        rs finals := by
  induction rs with
  | nil => exact ⟨[], List.Forall₂.nil⟩
  | cons r rs ih =>
    obtain ⟨finals, hf⟩ := ih
    obtain ⟨f, h⟩ := PNCounter.replica_spec r
    exact ⟨f :: finals, List.Forall₂.cons h hf⟩

/-- C2. Replicas with pairwise distinct names start empty and receive any
local `increment(delta)` calls (`rs` lists each replica's name and deltas).
All of them reach a final state, and when the final states of all replicas
are merged into one of them (`target`), in any order and with any
repetition (`order`), the `query()` of that replica is the signed sum of
every delta applied on any replica. -/
theorem PNCounter.merged_query (rs : List (Identity × List Int))
    (hn : (rs.map Prod.fst).Nodup) :
    ∃ finals : List PNCounter,
      List.Forall₂ (fun r f => PNCounter.replica r = .ok f) rs finals ∧
      ∀ target ∈ finals, ∀ order : List PNCounter,
        (∀ f ∈ order, f ∈ finals) → (∀ f ∈ finals, f = target ∨ f ∈ order) →
        (order.foldl PNCounter.merge target).query = (rs.map fun r => r.2.sum).sum := by
  obtain ⟨finals, hf⟩ := PNCounter.replicas_exist rs
  refine ⟨finals, hf.imp fun _ _ h => h.1, ?_⟩
  intro target ht order h1 h2
  have hpos : (joinAll (finals.map fun f : PNCounter => f.positive.counts)).total
      = (finals.map fun f => f.positive.counts.total).sum := by
    have := Counts.total_joinAll (finals.map fun f : PNCounter => (f.positive.name, f.positive.counts))
      (by
        rw [List.map_map]
        have e : finals.map (Prod.fst ∘ fun f : PNCounter => (f.positive.name, f.positive.counts))
            = rs.map Prod.fst :=
          (forall₂_map_eq hf fun a b h => h.2.1.1.symm).symm
        rw [e]; exact hn)
      (by
        intro e he
        obtain ⟨f, hfm, rfl⟩ := List.mem_map.1 he
        obtain ⟨r, _, hr⟩ := forall₂_of_mem_right hf hfm
        show f.positive.counts.dom ⊆ {f.positive.name}
        rw [hr.2.1.1]
        exact hr.2.1.2.2.1)
    simpa [List.map_map, Function.comp] using this
  have hneg : (joinAll (finals.map fun f : PNCounter => f.negative.counts)).total
      = (finals.map fun f => f.negative.counts.total).sum := by
    have := Counts.total_joinAll (finals.map fun f : PNCounter => (f.negative.name, f.negative.counts))
      (by
        rw [List.map_map]
        have e : finals.map (Prod.fst ∘ fun f : PNCounter => (f.negative.name, f.negative.counts))
            = rs.map Prod.fst :=
          (forall₂_map_eq hf fun a b h => h.2.1.2.1.symm).symm
        rw [e]; exact hn)
      (by
        intro e he
        obtain ⟨f, hfm, rfl⟩ := List.mem_map.1 he
        obtain ⟨r, _, hr⟩ := forall₂_of_mem_right hf hfm
        show f.negative.counts.dom ⊆ {f.negative.name}
        rw [hr.2.1.2.1]
        exact hr.2.1.2.2.2)
    simpa [List.map_map, Function.comp] using this
  show (((order.foldl PNCounter.merge target).positive.counts.total : Nat) : Int)
      - (((order.foldl PNCounter.merge target).negative.counts.total : Nat) : Int) = _
  rw [PNCounter.foldl_merge_positive, PNCounter.foldl_merge_negative,
    sup_joinAll_eq (fun f : PNCounter => f.positive.counts) finals order target ht h1 h2,
    sup_joinAll_eq (fun f : PNCounter => f.negative.counts) finals order target ht h1 h2,
    hpos, hneg, PNCounter.sum_query]
  exact congrArg List.sum (forall₂_map_eq hf fun a b h => h.2.2.symm).symm

/-- Witness for C2 on the replicas of `simulatePNCountersInP2PNetwork`. -/
theorem PNCounter.merged_query_witness :
    (pnScenarioReplicas.map Prod.fst).Nodup ∧
    ∃ finals : List PNCounter,
      List.Forall₂ (fun r f => PNCounter.replica r = .ok f) pnScenarioReplicas finals ∧
      ∀ target ∈ finals, ∀ order : List PNCounter,
        (∀ f ∈ order, f ∈ finals) → (∀ f ∈ finals, f = target ∨ f ∈ order) →
        (order.foldl PNCounter.merge target).query
          = (pnScenarioReplicas.map fun r => r.2.sum).sum :=
  ⟨by decide, PNCounter.merged_query pnScenarioReplicas (by decide)⟩

/-! ## `P2PNetwork::broadcast` -/

theorem P2PNetwork.deliver_frame {α : Type} [CRDT α] (replicas : List (Option Ptr))
    (i : Nat) (s : Ptr) (store : Ptr → α) (j : Nat) (q : Ptr)
    (h : j ≠ i → replicas[j]? ≠ some (some q)) :
    P2PNetwork.deliver replicas i s store j q = store q := by
  unfold P2PNetwork.deliver
  by_cases hj : j ≠ i
  · rw [if_pos hj]
    have h' := h hj
    rcases hr : replicas[j]? with _ | _ | other
    · rfl
    · rfl
    · have hne : q ≠ other := fun e => h' (by rw [hr, e])
      exact Function.update_noteq hne _ _
  · rw [if_neg hj]

theorem P2PNetwork.deliver_fold_frame {α : Type} [CRDT α] (replicas : List (Option Ptr))
    (i : Nat) (s : Ptr) (js : List Nat) (store : Ptr → α) (q : Ptr)
    (h : ∀ j ∈ js, j ≠ i → replicas[j]? ≠ some (some q)) :
    js.foldl (P2PNetwork.deliver replicas i s) store q = store q := by
  induction js generalizing store with
  | nil => rfl
  | cons j js ih =>
    rw [List.foldl_cons, ih _ fun j' hj' => h j' (List.mem_cons_of_mem _ hj')]
    exact P2PNetwork.deliver_frame replicas i s store j q (h j (List.mem_cons_self _ _))

theorem P2PNetwork.deliver_target {α S : Type} [SemilatticeSup S] [CRDT α] [JoinCRDT α S]
    (replicas : List (Option Ptr)) (i : Nat) (s : Ptr) (store : Ptr → α) (j : Nat) (q : Ptr)
    (hj : j ≠ i) (hq : replicas[j]? = some (some q)) :
    JoinCRDT.state (P2PNetwork.deliver replicas i s store j q)
      = JoinCRDT.state (store q) ⊔ JoinCRDT.state (store s) := by
  unfold P2PNetwork.deliver
  rw [if_pos hj, hq]
  simp only [Function.update_same]
  exact JoinCRDT.state_merge _ _

theorem P2PNetwork.deliver_state {α S : Type} [SemilatticeSup S] [CRDT α] [JoinCRDT α S]
    (replicas : List (Option Ptr)) (i : Nat) (s : Ptr) (store : Ptr → α) (j : Nat) (q : Ptr) :
    JoinCRDT.state (P2PNetwork.deliver replicas i s store j q) = JoinCRDT.state (store q) ∨
    JoinCRDT.state (P2PNetwork.deliver replicas i s store j q)
      = JoinCRDT.state (store q) ⊔ JoinCRDT.state (store s) := by
  by_cases h : j ≠ i ∧ replicas[j]? = some (some q)
  · exact Or.inr (P2PNetwork.deliver_target replicas i s store j q h.1 h.2)
  · left
    rw [P2PNetwork.deliver_frame replicas i s store j q]
    intro hj hq
    exact h ⟨hj, hq⟩

theorem P2PNetwork.deliver_source {α S : Type} [SemilatticeSup S] [CRDT α] [JoinCRDT α S]
    (replicas : List (Option Ptr)) (i : Nat) (s : Ptr) (store : Ptr → α) (j : Nat) :
    JoinCRDT.state (P2PNetwork.deliver replicas i s store j s) = JoinCRDT.state (store s) := by
  rcases P2PNetwork.deliver_state replicas i s store j s with h | h
  · exact h
  · rw [h, sup_idem]

theorem P2PNetwork.deliver_fold_source {α S : Type} [SemilatticeSup S] [CRDT α] [JoinCRDT α S]
    (replicas : List (Option Ptr)) (i : Nat) (s : Ptr) (js : List Nat) (store : Ptr → α) :
    JoinCRDT.state (js.foldl (P2PNetwork.deliver replicas i s) store s)
      = JoinCRDT.state (store s) := by
  induction js generalizing store with
  | nil => rfl
  | cons j js ih =>
    rw [List.foldl_cons, ih, P2PNetwork.deliver_source]

theorem P2PNetwork.deliver_fold_target {α S : Type} [SemilatticeSup S] [CRDT α] [JoinCRDT α S]
    (replicas : List (Option Ptr)) (i : Nat) (s : Ptr) (js : List Nat) (store : Ptr → α)
    (q : Ptr) (h : ∃ j ∈ js, j ≠ i ∧ replicas[j]? = some (some q)) :
    JoinCRDT.state (js.foldl (P2PNetwork.deliver replicas i s) store q)
      = JoinCRDT.state (store q) ⊔ JoinCRDT.state (store s) := by
  induction js generalizing store with
  | nil =>
    obtain ⟨j, hj, _⟩ := h
    cases hj
  | cons j js ih =>
    rw [List.foldl_cons]
    by_cases hrest : ∃ j' ∈ js, j' ≠ i ∧ replicas[j']? = some (some q)
    · rw [ih _ hrest, P2PNetwork.deliver_source]
      rcases P2PNetwork.deliver_state replicas i s store j q with e | e
      · rw [e]
      · rw [e, sup_assoc, sup_idem]
    · have hfr : ∀ j' ∈ js, j' ≠ i → replicas[j']? ≠ some (some q) :=
        fun j' hj' hne he => hrest ⟨j', hj', hne, he⟩
      rw [P2PNetwork.deliver_fold_frame replicas i s js _ q hfr]
      obtain ⟨j', hj', hne, he⟩ := h
      rcases List.mem_cons.1 hj' with rfl | hj''
      · exact P2PNetwork.deliver_target replicas i s store j' q hne he
      · exact absurd ⟨j', hj'', hne, he⟩ hrest

theorem mem_iff_getElem?_some {replicas : List (Option Ptr)} {q : Ptr} :
    some q ∈ replicas ↔ ∃ j : Nat, replicas[j]? = some (some q) :=
  List.mem_iff_getElem?

/-- The effect of `broadcast(i)` from an active slot on every counter. -/
theorem P2PNetwork.broadcast_effect {α S : Type} [SemilatticeSup S] [CRDT α] [JoinCRDT α S]
    (net : P2PNetwork α) (i : Nat) (src : Ptr)
    (hi : net.replicas[i]? = some (some src)) :
    ∃ net', net.broadcast i = .ok net' ∧
      net'.replicas = net.replicas ∧ net'.offline_set = net.offline_set ∧
      (∀ j q, j ≠ i → net.replicas[j]? = some (some q) →
        JoinCRDT.state (net'.store q)
          = JoinCRDT.state (CRDT.merge (net.store q) (net.store src))) ∧
      JoinCRDT.state (net'.store src) = JoinCRDT.state (net.store src) ∧
      (∀ q, (∀ j, j ≠ i → net.replicas[j]? ≠ some (some q)) →
        net'.store q = net.store q) := by
  refine ⟨⟨net.replicas, net.offline_set, (List.range net.replicas.length).foldl
      (P2PNetwork.deliver net.replicas i src) net.store⟩, ?_, rfl, rfl, ?_, ?_, ?_⟩
  · unfold P2PNetwork.broadcast
    rw [hi]
  · intro j q hj hq
    rw [JoinCRDT.state_merge]
    apply P2PNetwork.deliver_fold_target
    refine ⟨j, ?_, hj, hq⟩
    rw [List.mem_range]
    by_contra hlt
    rw [List.getElem?_eq_none (Nat.le_of_not_lt hlt)] at hq
    cases hq
  · exact P2PNetwork.deliver_fold_source _ _ _ _ _
  · intro q hq
    exact P2PNetwork.deliver_fold_frame _ _ _ _ _ _ fun j _ hj => hq j hj

theorem StoreStep.refl {α S : Type} [SemilatticeSup S] [CRDT α] [JoinCRDT α S]
    (rs : List (Option Ptr)) (store : Ptr → α) : StoreStep rs store store :=
  ⟨fun _ _ => rfl, fun _ => le_refl _, fun _ h => h⟩

theorem StoreStep.trans {α S : Type} [SemilatticeSup S] [CRDT α] [JoinCRDT α S]
    {rs : List (Option Ptr)} {s1 s2 s3 : Ptr → α}
    (h12 : StoreStep rs s1 s2) (h23 : StoreStep rs s2 s3) : StoreStep rs s1 s3 :=
  ⟨fun q hq => (h23.1 q hq).trans (h12.1 q hq),
   fun q => le_trans (h12.2.1 q) (h23.2.1 q),
   fun B hB => h23.2.2 B (h12.2.2 B hB)⟩

theorem List.dedup_length_of_const {A : Type} [DecidableEq A] (l : List A) (v : A)
    (hne : l ≠ []) (h : ∀ x ∈ l, x = v) : l.dedup.length = 1 := by
  induction l with
  | nil => exact absurd rfl hne
  | cons a l ih =>
    cases l with
    | nil => rfl
    | cons b l =>
      have ha : a = v := h a (List.mem_cons_self _ _)
      have hb : b = v := h b (List.mem_cons_of_mem _ (List.mem_cons_self _ _))
      have hmem : a ∈ b :: l := by rw [ha, hb]; exact List.mem_cons_self _ _
      rw [List.dedup_cons_of_mem hmem]
      exact ih (List.cons_ne_nil _ _) fun x hx => h x (List.mem_cons_of_mem _ hx)

/-- One call `broadcast(i)` with a valid index, seen as a step of the store. -/
theorem P2PNetwork.broadcast_step {α S : Type} [SemilatticeSup S] [CRDT α] [JoinCRDT α S]
    (net : P2PNetwork α) (i : Nat) (hi : i < net.replicas.length) :
    ∃ net', net.broadcast i = .ok net' ∧
      net'.replicas = net.replicas ∧ net'.offline_set = net.offline_set ∧
      StoreStep net.replicas net.store net'.store ∧
      (∀ s, net.replicas[i]? = some (some s) → ∀ q, some q ∈ net.replicas →
        JoinCRDT.state (net.store s) ≤ JoinCRDT.state (net'.store q)) := by
  rcases hr : net.replicas[i]? with _ | _ | s
  · rw [List.getElem?_eq_none_iff] at hr
    omega
  · refine ⟨net, ?_, rfl, rfl, StoreStep.refl _ _, ?_⟩
    · unfold P2PNetwork.broadcast
      rw [hr]
    · intro s hs
      cases hs
  · obtain ⟨net', h1, h2, h3, h4, h5, h6⟩ := P2PNetwork.broadcast_effect net i s hr
    have hs : some s ∈ net.replicas := mem_iff_getElem?_some.2 ⟨i, hr⟩
    have hcase : ∀ q, net'.store q = net.store q ∨
        JoinCRDT.state (net'.store q)
          = JoinCRDT.state (net.store q) ⊔ JoinCRDT.state (net.store s) := by
      intro q
      by_cases ht : ∃ j, j ≠ i ∧ net.replicas[j]? = some (some q)
      · obtain ⟨j, hj, hq⟩ := ht
        right
        rw [h4 j q hj hq, JoinCRDT.state_merge]
      · left
        exact h6 q fun j hj hq => ht ⟨j, hj, hq⟩
    refine ⟨net', h1, h2, h3, ⟨?_, ?_, ?_⟩, ?_⟩
    · intro q hq
      exact h6 q fun j _ hjq => hq (mem_iff_getElem?_some.2 ⟨j, hjq⟩)
    · intro q
      rcases hcase q with e | e
      · rw [e]
      · rw [e]; exact le_sup_left
    · intro B hB q hq
      rcases hcase q with e | e
      · rw [e]; exact hB q hq
      · rw [e]; exact sup_le (hB q hq) (hB s hs)
    · intro s' hs' q hq
      have e' : s' = s := by
        have := hs'.symm.trans rfl
        injection this with this
        injection this
      subst e'
      by_cases ht : ∃ j, j ≠ i ∧ net.replicas[j]? = some (some q)
      · obtain ⟨j, hj, hjq⟩ := ht
        rw [h4 j q hj hjq, JoinCRDT.state_merge]
        exact le_sup_right
      · obtain ⟨j, hjq⟩ := mem_iff_getElem?_some.1 hq
        have hji : j = i := by
          by_contra hne
          exact ht ⟨j, hne, hjq⟩
        subst hji
        have e'' : q = s' := by
          have := hjq.symm.trans hr
          injection this with this
          injection this
        subst e''
        rw [h5]

/-- A run of `broadcast` calls over valid indices `is`. -/
theorem P2PNetwork.broadcast_fold {α S : Type} [SemilatticeSup S] [CRDT α] [JoinCRDT α S]
    (is : List Nat) (net : P2PNetwork α) (his : ∀ i ∈ is, i < net.replicas.length) :
    ∃ net', is.foldlM (fun n i => n.broadcast i) net = .ok net' ∧
      net'.replicas = net.replicas ∧ net'.offline_set = net.offline_set ∧
      StoreStep net.replicas net.store net'.store ∧
      (∀ i ∈ is, ∀ s, net.replicas[i]? = some (some s) → ∀ q, some q ∈ net.replicas →
        JoinCRDT.state (net.store s) ≤ JoinCRDT.state (net'.store q)) := by
  induction is generalizing net with
  | nil => exact ⟨net, rfl, rfl, rfl, StoreStep.refl _ _, fun i hi => by cases hi⟩
  | cons i is ih =>
    obtain ⟨n1, h1, hr1, ho1, hs1, hd1⟩ :=
      P2PNetwork.broadcast_step net i (his i (List.mem_cons_self _ _))
    obtain ⟨n2, h2, hr2, ho2, hs2, hd2⟩ := ih n1 (by
      intro j hj
      rw [hr1]
      exact his j (List.mem_cons_of_mem _ hj))
    rw [hr1] at hs2 hd2
    refine ⟨n2, ?_, hr2.trans hr1, ho2.trans ho1, hs1.trans hs2, ?_⟩
    · rw [List.foldlM_cons, h1]
      exact h2
    · intro j hj s hs q hq
      rcases List.mem_cons.1 hj with rfl | hj'
      · exact le_trans (hd1 s hs q hq) (hs2.2.1 q)
      · exact le_trans (hs1.2.1 s) (hd2 j hj' s hs q hq)

theorem mem_filterMap_id_iff {replicas : List (Option Ptr)} {q : Ptr} :
    q ∈ replicas.filterMap id ↔ some q ∈ replicas := by
  simp [List.mem_filterMap]

/-- C3. In a network with at least one active replica `broadcastAll()`
completes and leaves the slot sequence and the offline set unchanged; every
counter held by an active slot ends in the join of the states that the
counters of all active slots had before the call; every counter that no
active slot refers to (every offline replica) is unchanged; and when no
replica is offline, `countPartitions()` is 1 after the call. -/
theorem P2PNetwork.broadcastAll_spec {α S : Type} [SemilatticeSup S] [OrderBot S] [CRDT α]
    [JoinCRDT α S] (net : P2PNetwork α) (hact : ∃ p, some p ∈ net.replicas) :
    ∃ net', net.broadcastAll = .ok net' ∧
      net'.replicas = net.replicas ∧ net'.offline_set = net.offline_set ∧
      (∀ q, some q ∈ net.replicas →
        JoinCRDT.state (net'.store q)
          = joinAll ((net.replicas.filterMap id).map fun p => JoinCRDT.state (net.store p))) ∧
      (∀ q, some q ∉ net.replicas → net'.store q = net.store q) ∧
      (net.offline_set = [] → net'.countPartitions = 1) := by
  obtain ⟨net', h1, hr, ho, hs, hd⟩ :=
    P2PNetwork.broadcast_fold (List.range net.replicas.length) net
      (fun i hi => List.mem_range.1 hi)
  have hjoin : ∀ q, some q ∈ net.replicas →
      JoinCRDT.state (net'.store q)
        = joinAll ((net.replicas.filterMap id).map fun p => JoinCRDT.state (net.store p)) := by
    intro q hq
    apply le_antisymm
    · apply hs.2.2 _ _ q hq
      intro p hp
      exact le_joinAll (List.mem_map_of_mem _ (mem_filterMap_id_iff.2 hp))
    · rw [joinAll_le_iff]
      intro a ha
      obtain ⟨p, hp, rfl⟩ := List.mem_map.1 ha
      obtain ⟨i, hi⟩ := mem_iff_getElem?_some.1 (mem_filterMap_id_iff.1 hp)
      have hlt : i < net.replicas.length := by
        by_contra hge
        rw [List.getElem?_eq_none (Nat.le_of_not_lt hge)] at hi
        cases hi
      exact hd i (List.mem_range.2 hlt) p hi q hq
  refine ⟨net', h1, hr, ho, hjoin, hs.1, ?_⟩
  intro hoff
  obtain ⟨p0, hp0⟩ := hact
  unfold P2PNetwork.countPartitions
  rw [ho, hoff, hr, List.map_nil, List.append_nil]
  apply List.dedup_length_of_const _ (CRDT.query (net'.store p0))
  · intro hnil
    have : CRDT.query (net'.store p0)
        ∈ (net.replicas.filterMap id).map fun p => CRDT.query (net'.store p) :=
      List.mem_map_of_mem _ (mem_filterMap_id_iff.2 hp0)
    rw [hnil] at this
    cases this
  · intro x hx
    obtain ⟨p, hp, rfl⟩ := List.mem_map.1 hx
    apply JoinCRDT.query_congr
    rw [hjoin p (mem_filterMap_id_iff.1 hp), hjoin p0 hp0]

/-! ## `StarNetwork::syncWithServer` -/

/-- The effect of `syncWithServer(i)` between an active client and an active
server on every counter. -/
theorem StarNetwork.syncWithServer_effect {α S : Type} [SemilatticeSup S] [CRDT α]
    [JoinCRDT α S] (net : StarNetwork α) (i : Nat) (ps pc : Ptr) (hi : 1 ≤ i)
    (hs : net.replicas[0]? = some (some ps)) (hc : net.replicas[i]? = some (some pc)) :
    ∃ net', net.syncWithServer i = .ok net' ∧
      net'.replicas = net.replicas ∧ net'.offline_set = net.offline_set ∧
      JoinCRDT.state (net'.store pc)
        = JoinCRDT.state (net.store pc) ⊔ JoinCRDT.state (net.store ps) ∧
      JoinCRDT.state (net'.store ps)
        = JoinCRDT.state (net.store pc) ⊔ JoinCRDT.state (net.store ps) ∧
      CRDT.query (net'.store pc) = CRDT.query (net'.store ps) ∧
      (∀ p, p ≠ pc → p ≠ ps → net'.store p = net.store p) := by
  have hi0 : i ≠ 0 := by omega
  obtain ⟨store1, hstore1⟩ : ∃ f, f = Function.update net.store pc
      (CRDT.merge (net.store pc) (net.store ps)) := ⟨_, rfl⟩
  obtain ⟨store2, hstore2⟩ : ∃ f, f = Function.update store1 ps
      (CRDT.merge (store1 ps) (net.store pc)) := ⟨_, rfl⟩
  have e2 : JoinCRDT.state (store2 ps)
      = JoinCRDT.state (net.store pc) ⊔ JoinCRDT.state (net.store ps) := by
    rw [hstore2, Function.update_same, JoinCRDT.state_merge]
    by_cases hp : ps = pc
    · rw [hstore1, hp, Function.update_same, JoinCRDT.state_merge]
      exact sup_eq_left.2 le_sup_left
    · rw [hstore1, Function.update_noteq hp]
      exact sup_comm _ _
  have e1 : JoinCRDT.state (store2 pc)
      = JoinCRDT.state (net.store pc) ⊔ JoinCRDT.state (net.store ps) := by
    by_cases hp : pc = ps
    · rw [hp] at e2 ⊢
      exact e2
    · rw [hstore2, Function.update_noteq hp, hstore1, Function.update_same,
        JoinCRDT.state_merge]
  have hq : CRDT.query (store2 pc) = CRDT.query (store2 ps) :=
    JoinCRDT.query_congr _ _ (e1.trans e2.symm)
  refine ⟨⟨net.replicas, net.offline_set, store2⟩, ?_, rfl, rfl, e1, e2, hq, ?_⟩
  · unfold StarNetwork.syncWithServer
    rw [if_neg hi0, hs, hc]
    simp only
    rw [← hstore1, ← hstore2, if_pos hq]
  · intro p h1 h2
    show store2 p = net.store p
    rw [hstore2, Function.update_noteq h2, hstore1, Function.update_noteq h1]

/-- One call `syncWithServer(i)` with a valid index, seen as a step of the
store. -/
theorem StarNetwork.syncWithServer_step {α S : Type} [SemilatticeSup S] [CRDT α]
    [JoinCRDT α S] (net : StarNetwork α) (i : Nat) (hi : i < net.replicas.length) :
    ∃ net', net.syncWithServer i = .ok net' ∧
      net'.replicas = net.replicas ∧ net'.offline_set = net.offline_set ∧
      StoreStep net.replicas net.store net'.store ∧
      (1 ≤ i → ∀ ps pc, net.replicas[0]? = some (some ps) →
        net.replicas[i]? = some (some pc) →
        JoinCRDT.state (net.store pc) ≤ JoinCRDT.state (net'.store ps) ∧
        JoinCRDT.state (net.store ps) ≤ JoinCRDT.state (net'.store pc)) := by
  have hnoop : net.syncWithServer i = .ok net →
      (¬ (1 ≤ i ∧ ∃ ps pc, net.replicas[0]? = some (some ps) ∧
        net.replicas[i]? = some (some pc))) →
      ∃ net', net.syncWithServer i = .ok net' ∧
        net'.replicas = net.replicas ∧ net'.offline_set = net.offline_set ∧
        StoreStep net.replicas net.store net'.store ∧
        (1 ≤ i → ∀ ps pc, net.replicas[0]? = some (some ps) →
          net.replicas[i]? = some (some pc) →
          JoinCRDT.state (net.store pc) ≤ JoinCRDT.state (net'.store ps) ∧
          JoinCRDT.state (net.store ps) ≤ JoinCRDT.state (net'.store pc)) :=
    fun h hn => ⟨net, h, rfl, rfl, StoreStep.refl _ _,
      fun h1 ps pc h2 h3 => absurd ⟨h1, ps, pc, h2, h3⟩ hn⟩
  by_cases hi0 : i = 0
  · apply hnoop
    · unfold StarNetwork.syncWithServer
      rw [if_pos hi0]
    · rintro ⟨h1, _⟩
      omega
  have h0lt : 0 < net.replicas.length := by omega
  obtain ⟨server, hr0⟩ : ∃ x, net.replicas[0]? = some x :=
    ⟨_, List.getElem?_eq_getElem h0lt⟩
  obtain ⟨client, hri⟩ : ∃ x, net.replicas[i]? = some x :=
    ⟨_, List.getElem?_eq_getElem hi⟩
  rcases client with _ | pc
  · apply hnoop
    · unfold StarNetwork.syncWithServer
      rw [if_neg hi0, hr0, hri]
    · rintro ⟨_, ps, pc, _, h3⟩
      rw [hri] at h3
      cases h3
  rcases server with _ | ps
  · apply hnoop
    · unfold StarNetwork.syncWithServer
      rw [if_neg hi0, hr0, hri]
    · rintro ⟨_, ps, pc, h2, _⟩
      rw [hr0] at h2
      cases h2
  have h1i : 1 ≤ i := by omega
  obtain ⟨net', h1, h2, h3, h4, h5, _, h7⟩ :=
    StarNetwork.syncWithServer_effect net i ps pc h1i hr0 hri
  have hps : some ps ∈ net.replicas := mem_iff_getElem?_some.2 ⟨0, hr0⟩
  have hpc : some pc ∈ net.replicas := mem_iff_getElem?_some.2 ⟨i, hri⟩
  have hcase : ∀ q, net'.store q = net.store q ∨
      JoinCRDT.state (net'.store q)
        = JoinCRDT.state (net.store pc) ⊔ JoinCRDT.state (net.store ps) := by
    intro q
    by_cases hq1 : q = pc
    · right; rw [hq1]; exact h4
    · by_cases hq2 : q = ps
      · right; rw [hq2]; exact h5
      · left; exact h7 q hq1 hq2
  refine ⟨net', h1, h2, h3, ⟨?_, ?_, ?_⟩, ?_⟩
  · intro q hq
    apply h7 q
    · rintro rfl; exact hq hpc
    · rintro rfl; exact hq hps
  · intro q
    by_cases hq1 : q = pc
    · rw [hq1, h4]; exact le_sup_left
    · by_cases hq2 : q = ps
      · rw [hq2, h5]; exact le_sup_right
      · rw [h7 q hq1 hq2]
  · intro B hB q hq
    rcases hcase q with e | e
    · rw [e]; exact hB q hq
    · rw [e]; exact sup_le (hB pc hpc) (hB ps hps)
  · intro _ ps' pc' hs' hc'
    have e1 : ps' = ps := by
      have := hs'.symm.trans hr0
      injection this with this
      injection this
    have e2 : pc' = pc := by
      have := hc'.symm.trans hri
      injection this with this
      injection this
    subst e1; subst e2
    rw [h4, h5]
    exact ⟨le_sup_left, le_sup_right⟩

/-- A run of `syncWithServer` calls over valid indices `is`. -/
theorem StarNetwork.syncWithServer_fold {α S : Type} [SemilatticeSup S] [CRDT α]
    [JoinCRDT α S] (is : List Nat) (net : StarNetwork α)
    (his : ∀ i ∈ is, i < net.replicas.length) :
    ∃ net', is.foldlM (fun n i => n.syncWithServer i) net = .ok net' ∧
      net'.replicas = net.replicas ∧ net'.offline_set = net.offline_set ∧
      StoreStep net.replicas net.store net'.store ∧
      (∀ i ∈ is, 1 ≤ i → ∀ ps pc, net.replicas[0]? = some (some ps) →
        net.replicas[i]? = some (some pc) →
        JoinCRDT.state (net.store pc) ≤ JoinCRDT.state (net'.store ps) ∧
        JoinCRDT.state (net.store ps) ≤ JoinCRDT.state (net'.store pc)) := by
  induction is generalizing net with
  | nil => exact ⟨net, rfl, rfl, rfl, StoreStep.refl _ _, fun i hi => by cases hi⟩
  | cons i is ih =>
    obtain ⟨n1, h1, hr1, ho1, hs1, hd1⟩ :=
      StarNetwork.syncWithServer_step net i (his i (List.mem_cons_self _ _))
    obtain ⟨n2, h2, hr2, ho2, hs2, hd2⟩ := ih n1 (by
      intro j hj
      rw [hr1]
      exact his j (List.mem_cons_of_mem _ hj))
    rw [hr1] at hs2 hd2
    refine ⟨n2, ?_, hr2.trans hr1, ho2.trans ho1, hs1.trans hs2, ?_⟩
    · rw [List.foldlM_cons, h1]
      exact h2
    · intro j hj hj1 ps pc hps hpc
      rcases List.mem_cons.1 hj with rfl | hj'
      · obtain ⟨a, b⟩ := hd1 hj1 ps pc hps hpc
        exact ⟨le_trans a (hs2.2.1 ps), le_trans b (hs2.2.1 pc)⟩
      · obtain ⟨a, b⟩ := hd2 j hj' hj1 ps pc hps hpc
        exact ⟨le_trans (hs1.2.1 pc) a, le_trans (hs1.2.1 ps) b⟩

theorem mem_tail_range {n i : Nat} : i ∈ (List.range n).tail ↔ 1 ≤ i ∧ i < n := by
  cases n with
  | zero => simp
  | succ n =>
    rw [List.range_succ_eq_map, List.tail_cons, List.mem_map]
    constructor
    · rintro ⟨j, hj, rfl⟩
      rw [List.mem_range] at hj
      omega
    · rintro ⟨h1, h2⟩
      exact ⟨i - 1, List.mem_range.2 (by omega), by omega⟩

/-- One round `syncAllReplicasToServer()`. -/
theorem StarNetwork.syncAll_round {α S : Type} [SemilatticeSup S] [CRDT α]
    [JoinCRDT α S] (net : StarNetwork α) :
    ∃ net', net.syncAllReplicasToServer = .ok net' ∧
      net'.replicas = net.replicas ∧ net'.offline_set = net.offline_set ∧
      StoreStep net.replicas net.store net'.store ∧
      (∀ i, 1 ≤ i → ∀ ps pc, net.replicas[0]? = some (some ps) →
        net.replicas[i]? = some (some pc) →
        JoinCRDT.state (net.store pc) ≤ JoinCRDT.state (net'.store ps) ∧
        JoinCRDT.state (net.store ps) ≤ JoinCRDT.state (net'.store pc)) := by
  obtain ⟨net', h1, hr, ho, hs, hd⟩ :=
    StarNetwork.syncWithServer_fold (List.range net.replicas.length).tail net
      (fun i hi => (mem_tail_range.1 hi).2)
  refine ⟨net', h1, hr, ho, hs, ?_⟩
  intro i hi ps pc hps hpc
  have hlt : i < net.replicas.length := by
    by_contra hge
    rw [List.getElem?_eq_none (Nat.le_of_not_lt hge)] at hpc
    cases hpc
  exact hd i (mem_tail_range.2 ⟨hi, hlt⟩) hi ps pc hps hpc

/-- C4. With an active server (counter `ps`), two successive
`syncAllReplicasToServer()` rounds complete and leave the slot sequence and
the offline set unchanged; afterwards the counter of every active slot
(server and clients) holds the join of the states that the counters of all
active slots had before the first round; and when no replica is offline,
`countPartitions()` is 1. -/
theorem StarNetwork.two_rounds_converge {α S : Type} [SemilatticeSup S] [OrderBot S]
    [CRDT α] [JoinCRDT α S] (net : StarNetwork α) (ps : Ptr)
    (hs : net.replicas[0]? = some (some ps)) :
    ∃ net1 net2, net.syncAllReplicasToServer = .ok net1 ∧
      net1.syncAllReplicasToServer = .ok net2 ∧
      net2.replicas = net.replicas ∧ net2.offline_set = net.offline_set ∧
      (∀ q, some q ∈ net.replicas →
        JoinCRDT.state (net2.store q)
          = joinAll ((net.replicas.filterMap id).map fun p => JoinCRDT.state (net.store p))) ∧
      (net.offline_set = [] → net2.countPartitions = 1) := by
  obtain ⟨net1, h1, hr1, ho1, hs1, hd1⟩ := StarNetwork.syncAll_round net
  obtain ⟨net2, h2, hr2, ho2, hs2, hd2⟩ := StarNetwork.syncAll_round net1
  rw [hr1] at hs2 hd2
  have hps : some ps ∈ net.replicas := mem_iff_getElem?_some.2 ⟨0, hs⟩
  have hbound : ∀ p, some p ∈ net.replicas → JoinCRDT.state (net.store p)
      ≤ joinAll ((net.replicas.filterMap id).map fun p => JoinCRDT.state (net.store p)) :=
    fun p hp => le_joinAll (List.mem_map_of_mem _ (mem_filterMap_id_iff.2 hp))
  have hserver : joinAll ((net.replicas.filterMap id).map fun p => JoinCRDT.state (net.store p))
      ≤ JoinCRDT.state (net1.store ps) := by
    rw [joinAll_le_iff]
    intro a ha
    obtain ⟨p, hp, rfl⟩ := List.mem_map.1 ha
    obtain ⟨i, hi⟩ := mem_iff_getElem?_some.1 (mem_filterMap_id_iff.1 hp)
    by_cases hi0 : i = 0
    · subst hi0
      have e : p = ps := by
        have := hi.symm.trans hs
        injection this with this
        injection this
      rw [e]
      exact hs1.2.1 ps
    · exact (hd1 i (by omega) ps p hs hi).1
  have hjoin : ∀ q, some q ∈ net.replicas →
      JoinCRDT.state (net2.store q)
        = joinAll ((net.replicas.filterMap id).map fun p => JoinCRDT.state (net.store p)) := by
    intro q hq
    apply le_antisymm
    · exact hs2.2.2 _ (hs1.2.2 _ hbound) q hq
    · apply le_trans hserver
      obtain ⟨i, hi⟩ := mem_iff_getElem?_some.1 hq
      by_cases hi0 : i = 0
      · subst hi0
        have e : q = ps := by
          have := hi.symm.trans hs
          injection this with this
          injection this
        rw [e]
        exact hs2.2.1 ps
      · exact (hd2 i (by omega) ps q hs hi).2
  refine ⟨net1, net2, h1, h2, hr2.trans hr1, ho2.trans ho1, hjoin, ?_⟩
  intro hoff
  unfold StarNetwork.countPartitions
  rw [ho2, ho1, hoff, hr2, hr1, List.map_nil, List.append_nil]
  apply List.dedup_length_of_const _ (toUnsignedInt (CRDT.query (net2.store ps)))
  · intro hnil
    have : toUnsignedInt (CRDT.query (net2.store ps))
        ∈ (net.replicas.filterMap id).map fun p => toUnsignedInt (CRDT.query (net2.store p)) :=
      List.mem_map_of_mem _ (mem_filterMap_id_iff.2 hps)
    rw [hnil] at this
    cases this
  · intro x hx
    obtain ⟨p, hp, rfl⟩ := List.mem_map.1 hx
    congr 1
    apply JoinCRDT.query_congr
    rw [hjoin p (mem_filterMap_id_iff.1 hp), hjoin ps hps]

theorem find?_fst_eq_none {l : List (Nat × Ptr)} {i : Nat} (h : ∀ e ∈ l, e.1 ≠ i) :
    l.find? (fun e => e.1 == i) = none := by
  rw [List.find?_eq_none]
  intro e he
  simpa using h e he

/-! ## The slot state machine -/

theorem entriesFor_append_single (offline : List (Nat × Ptr)) (i j : Nat) (p : Ptr) :
    entriesFor (offline ++ [(i, p)]) j = entriesFor offline j + if i = j then 1 else 0 := by
  unfold entriesFor
  rw [List.countP_append, List.countP_cons, List.countP_nil]
  by_cases h : i = j <;> simp [h]

theorem entriesFor_erase (offline : List (Nat × Ptr)) (it : Nat × Ptr) (j : Nat)
    (h : it ∈ offline) :
    entriesFor offline j = entriesFor (offline.erase it) j + if it.1 = j then 1 else 0 := by
  induction offline with
  | nil => cases h
  | cons a l ih =>
    rw [List.erase_cons]
    by_cases ha : a = it
    · subst ha
      simp only [beq_self_eq_true, if_true]
      unfold entriesFor
      rw [List.countP_cons]
      by_cases hj : a.1 = j <;> simp [hj]
    · have hne : (a == it) = false := by simpa using ha
      have hmem : it ∈ l := by
        rcases List.mem_cons.1 h with e | e
        · exact absurd e.symm ha
        · exact e
      rw [hne]
      simp only [Bool.false_eq_true, if_false]
      have := ih hmem
      unfold entriesFor at this ⊢
      rw [List.countP_cons, List.countP_cons, this]
      omega

theorem entriesFor_eq_zero {offline : List (Nat × Ptr)} {i : Nat} :
    entriesFor offline i = 0 ↔ ∀ e ∈ offline, e.1 ≠ i := by
  unfold entriesFor
  rw [List.countP_eq_zero]
  simp

theorem emplace_of_no_entry (offline : List (Nat × Ptr)) (i : Nat) (p : Ptr)
    (h : entriesFor offline i = 0) : emplace offline (i, p) = offline ++ [(i, p)] := by
  unfold emplace
  rw [if_neg]
  intro hmem
  exact entriesFor_eq_zero.1 h _ hmem rfl

theorem SlotOK_congr {replicas replicas' : List (Option Ptr)}
    {offline offline' : List (Nat × Ptr)} {j : Nat}
    (h1 : replicas'[j]? = replicas[j]?) (h2 : entriesFor offline' j = entriesFor offline j)
    (h : SlotOK replicas offline j) : SlotOK replicas' offline' j := by
  unfold SlotOK at h ⊢
  rw [h1, h2]
  exact h

theorem SlotOK_active {replicas : List (Option Ptr)} {offline : List (Nat × Ptr)} {i : Nat}
    {p : Ptr} (h1 : replicas[i]? = some (some p)) (h2 : entriesFor offline i = 0) :
    SlotOK replicas offline i := by
  unfold SlotOK
  rw [h1]
  exact h2

theorem SlotOK_offline {replicas : List (Option Ptr)} {offline : List (Nat × Ptr)} {i : Nat}
    (h1 : replicas[i]? = some none) (h2 : entriesFor offline i = 1) :
    SlotOK replicas offline i := by
  unfold SlotOK
  rw [h1]
  exact h2

theorem SlotOK_entries_of_active {replicas : List (Option Ptr)}
    {offline : List (Nat × Ptr)} {i : Nat} {p : Ptr} (h : SlotOK replicas offline i)
    (h1 : replicas[i]? = some (some p)) : entriesFor offline i = 0 := by
  unfold SlotOK at h
  rw [h1] at h
  exact h

theorem SlotOK_entries_of_null {replicas : List (Option Ptr)}
    {offline : List (Nat × Ptr)} {i : Nat} (h : SlotOK replicas offline i)
    (h1 : replicas[i]? = some none) : entriesFor offline i = 1 := by
  unfold SlotOK at h
  rw [h1] at h
  exact h

/-- Shape of the slots after `disconnect(i)` of an active slot without entry. -/
theorem SlotOK_disconnect {replicas : List (Option Ptr)} {offline : List (Nat × Ptr)}
    {i : Nat} {p : Ptr} (hi : replicas[i]? = some (some p))
    (h0 : entriesFor offline i = 0) (j : Nat)
    (hj : j = i ∨ SlotOK replicas offline j) :
    SlotOK (replicas.set i none) (emplace offline (i, p)) j := by
  have hlt : i < replicas.length := by
    by_contra hge
    rw [List.getElem?_eq_none (Nat.le_of_not_lt hge)] at hi
    cases hi
  rw [emplace_of_no_entry offline i p h0]
  by_cases hji : j = i
  · subst hji
    apply SlotOK_offline
    · exact List.getElem?_set_self hlt
    · rw [entriesFor_append_single, h0]
      simp
  · rcases hj with hj | hj
    · exact absurd hj hji
    · apply SlotOK_congr _ _ hj
      · exact List.getElem?_set_ne (fun e => hji e.symm)
      · have hij : i ≠ j := fun e => hji e.symm
        rw [entriesFor_append_single, if_neg hij]
        rfl

/-- Shape of the slots after `reconnect(i)` of a null slot with one entry. -/
theorem SlotOK_reconnect {replicas : List (Option Ptr)} {offline : List (Nat × Ptr)}
    {i : Nat} {it : Nat × Ptr} (hi : replicas[i]? = some none) (hit : it ∈ offline)
    (hit1 : it.1 = i) (h1 : entriesFor offline i = 1) (j : Nat)
    (hj : j = i ∨ SlotOK replicas offline j) :
    SlotOK (replicas.set i (some it.2)) (offline.erase it) j := by
  have hlt : i < replicas.length := by
    by_contra hge
    rw [List.getElem?_eq_none (Nat.le_of_not_lt hge)] at hi
    cases hi
  by_cases hji : j = i
  · subst hji
    apply SlotOK_active (p := it.2)
    · exact List.getElem?_set_self hlt
    · have := entriesFor_erase offline it j hit
      rw [h1, if_pos hit1] at this
      omega
  · rcases hj with hj | hj
    · exact absurd hj hji
    · apply SlotOK_congr _ _ hj
      · exact List.getElem?_set_ne (fun e => hji e.symm)
      · have := entriesFor_erase offline it j hit
        rw [if_neg (fun e => hji (e.symm.trans hit1))] at this
        omega

theorem find?_entry {offline : List (Nat × Ptr)} {i : Nat} {it : Nat × Ptr}
    (h : offline.find? (fun e => e.1 == i) = some it) : it ∈ offline ∧ it.1 = i := by
  refine ⟨List.mem_of_find?_eq_some h, ?_⟩
  have := List.find?_some h
  simpa using this

theorem find?_of_entries_zero {offline : List (Nat × Ptr)} {i : Nat}
    (h : entriesFor offline i = 0) : offline.find? (fun e => e.1 == i) = none :=
  find?_fst_eq_none (entriesFor_eq_zero.1 h)

theorem find?_of_entries_pos {offline : List (Nat × Ptr)} {i : Nat}
    (h : 0 < entriesFor offline i) : ∃ it, offline.find? (fun e => e.1 == i) = some it := by
  rcases Option.eq_none_or_eq_some (offline.find? fun e => e.1 == i) with hf | hf
  · rw [List.find?_eq_none] at hf
    have : entriesFor offline i = 0 := by
      unfold entriesFor
      rw [List.countP_eq_zero]
      exact hf
    omega
  · exact hf

theorem mem_emplace {offline : List (Nat × Ptr)} {x e : Nat × Ptr}
    (h : e ∈ emplace offline x) : e ∈ offline ∨ e = x := by
  unfold emplace at h
  by_cases hx : x ∈ offline
  · rw [if_pos hx] at h
    exact Or.inl h
  · rw [if_neg hx] at h
    rcases List.mem_append.1 h with h' | h'
    · exact Or.inl h'
    · exact Or.inr (List.mem_singleton.1 h')

theorem getElem?_lt_of_eq_some {A : Type} {l : List A} {i : Nat} {a : A}
    (h : l[i]? = some a) : i < l.length := by
  by_contra hge
  rw [List.getElem?_eq_none (Nat.le_of_not_lt hge)] at h
  cases h

theorem P2PNetwork.disconnect_inv {α : Type} (net : P2PNetwork α) (i : Nat)
    (hi : i < net.replicas.length) (h : net.SlotsConsistent) :
    ∃ net', net.disconnect i = .ok net' ∧ net'.SlotsConsistent ∧
      net'.replicas.length = net.replicas.length := by
  obtain ⟨x, hx⟩ : ∃ x, net.replicas[i]? = some x := ⟨_, List.getElem?_eq_getElem hi⟩
  rcases x with _ | p
  · refine ⟨net, ?_, h, rfl⟩
    unfold P2PNetwork.disconnect
    rw [hx]
  · refine ⟨⟨net.replicas.set i none, emplace net.offline_set (i, p), net.store⟩,
      ?_, ⟨?_, ?_⟩, List.length_set _ _ _⟩
    · unfold P2PNetwork.disconnect
      rw [hx]
    · intro j hj
      have hj' : j < net.replicas.length := by rwa [List.length_set] at hj
      apply SlotOK_disconnect hx (SlotOK_entries_of_active (h.1 i hi) hx) j
      exact Or.inr (h.1 j hj')
    · intro e he
      show e.1 < (net.replicas.set i none).length
      rw [List.length_set]
      rcases mem_emplace he with he' | rfl
      · exact h.2 e he'
      · exact hi

theorem P2PNetwork.reconnect_inv {α : Type} (net : P2PNetwork α) (i : Nat)
    (h : net.SlotsConsistent) :
    ∃ net', net.reconnect i = .ok net' ∧ net'.SlotsConsistent ∧
      net'.replicas.length = net.replicas.length := by
  rcases Option.eq_none_or_eq_some (net.offline_set.find? fun e => e.1 == i) with hf | ⟨it, hf⟩
  · refine ⟨net, ?_, h, rfl⟩
    unfold P2PNetwork.reconnect
    rw [hf]
  · obtain ⟨hit, hit1⟩ := find?_entry hf
    have hi : i < net.replicas.length := hit1 ▸ h.2 it hit
    have hpos : 0 < entriesFor net.offline_set i := by
      unfold entriesFor
      rw [List.countP_pos_iff]
      exact ⟨it, hit, by simp [hit1]⟩
    obtain ⟨x, hx⟩ : ∃ x, net.replicas[i]? = some x := ⟨_, List.getElem?_eq_getElem hi⟩
    rcases x with _ | p
    · have h1 := SlotOK_entries_of_null (h.1 i hi) hx
      refine ⟨⟨net.replicas.set i (some it.2), net.offline_set.erase it, net.store⟩,
        ?_, ⟨?_, ?_⟩, List.length_set _ _ _⟩
      · unfold P2PNetwork.reconnect
        rw [hf]
        simp only
        rw [hx]
      · intro j hj
        have hj' : j < net.replicas.length := by rwa [List.length_set] at hj
        exact SlotOK_reconnect hx hit hit1 h1 j (Or.inr (h.1 j hj'))
      · intro e he
        show e.1 < (net.replicas.set i (some it.2)).length
        rw [List.length_set]
        exact h.2 e (List.mem_of_mem_erase he)
    · have h0 := SlotOK_entries_of_active (h.1 i hi) hx
      omega

theorem P2PNetwork.broadcast_shape {α : Type} [CRDT α] (net : P2PNetwork α) (i : Nat)
    (hi : i < net.replicas.length) :
    ∃ net', net.broadcast i = .ok net' ∧ net'.replicas = net.replicas ∧
      net'.offline_set = net.offline_set := by
  obtain ⟨x, hx⟩ : ∃ x, net.replicas[i]? = some x := ⟨_, List.getElem?_eq_getElem hi⟩
  rcases x with _ | p
  · refine ⟨net, ?_, rfl, rfl⟩
    unfold P2PNetwork.broadcast
    rw [hx]
  · refine ⟨⟨net.replicas, net.offline_set, (List.range net.replicas.length).foldl
      (P2PNetwork.deliver net.replicas i p) net.store⟩, ?_, rfl, rfl⟩
    unfold P2PNetwork.broadcast
    rw [hx]

theorem P2PNetwork.broadcast_fold_shape {α : Type} [CRDT α] (is : List Nat)
    (net : P2PNetwork α) (his : ∀ i ∈ is, i < net.replicas.length) :
    ∃ net', is.foldlM (fun n i => n.broadcast i) net = .ok net' ∧
      net'.replicas = net.replicas ∧ net'.offline_set = net.offline_set := by
  induction is generalizing net with
  | nil => exact ⟨net, rfl, rfl, rfl⟩
  | cons i is ih =>
    obtain ⟨n1, h1, hr1, ho1⟩ :=
      P2PNetwork.broadcast_shape net i (his i (List.mem_cons_self _ _))
    obtain ⟨n2, h2, hr2, ho2⟩ := ih n1 (by
      intro j hj
      rw [hr1]
      exact his j (List.mem_cons_of_mem _ hj))
    refine ⟨n2, ?_, hr2.trans hr1, ho2.trans ho1⟩
    rw [List.foldlM_cons, h1]
    exact h2

theorem P2PNetwork.SlotsConsistent_of_shape {α : Type} {net net' : P2PNetwork α}
    (hr : net'.replicas = net.replicas) (ho : net'.offline_set = net.offline_set)
    (h : net.SlotsConsistent) : net'.SlotsConsistent := by
  unfold P2PNetwork.SlotsConsistent
  rw [hr, ho]
  exact h

theorem P2PNetwork.add_inv {α : Type} (net : P2PNetwork α) (crdt : Ptr)
    (h : net.SlotsConsistent) :
    (net.add (some crdt)).1.SlotsConsistent ∧
      (net.add (some crdt)).1.replicas.length = net.replicas.length + 1 := by
  have hlen : (net.replicas ++ [some crdt]).length = net.replicas.length + 1 := by simp
  refine ⟨⟨?_, ?_⟩, hlen⟩
  · intro j hj
    show SlotOK (net.replicas ++ [some crdt]) net.offline_set j
    have hj' : j < net.replicas.length + 1 := hlen ▸ hj
    by_cases hjl : j < net.replicas.length
    · exact SlotOK_congr (List.getElem?_append_left hjl) rfl (h.1 j hjl)
    · have e : j = net.replicas.length := by omega
      subst e
      apply SlotOK_active (List.getElem?_concat_length _ _)
      rw [entriesFor_eq_zero]
      intro e he heq
      have := h.2 e he
      omega
  · intro e he
    show e.1 < (net.replicas ++ [some crdt]).length
    rw [hlen]
    exact Nat.lt_succ_of_lt (h.2 e he)

theorem P2PNetwork.step_inv {α : Type} [CRDT α] (net : P2PNetwork α) (op : P2POp)
    (hv : op.valid net.replicas.length = true) (h : net.SlotsConsistent) :
    ∃ net', net.step op = .ok net' ∧ net'.SlotsConsistent ∧
      net'.replicas.length = op.sizeAfter net.replicas.length := by
  cases op with
  | add crdt =>
    exact ⟨_, rfl, (P2PNetwork.add_inv net crdt h).1, (P2PNetwork.add_inv net crdt h).2⟩
  | disconnect i =>
    have hi : i < net.replicas.length := by simpa [P2POp.valid] using hv
    exact P2PNetwork.disconnect_inv net i hi h
  | reconnect i => exact P2PNetwork.reconnect_inv net i h
  | broadcast i =>
    have hi : i < net.replicas.length := by simpa [P2POp.valid] using hv
    obtain ⟨net', h1, hr, ho⟩ := P2PNetwork.broadcast_shape net i hi
    exact ⟨net', h1, P2PNetwork.SlotsConsistent_of_shape hr ho h, by rw [hr]; rfl⟩
  | broadcastAll =>
    obtain ⟨net', h1, hr, ho⟩ :=
      P2PNetwork.broadcast_fold_shape (List.range net.replicas.length) net
        (fun i hi => List.mem_range.1 hi)
    exact ⟨net', h1, P2PNetwork.SlotsConsistent_of_shape hr ho h, by rw [hr]; rfl⟩

theorem P2PNetwork.run_inv {α : Type} [CRDT α] (ops : List P2POp) (net : P2PNetwork α)
    (hv : P2POp.validCalls net.replicas.length ops = true) (h : net.SlotsConsistent) :
    ∃ net', net.run ops = .ok net' ∧ net'.SlotsConsistent := by
  induction ops generalizing net with
  | nil => exact ⟨net, rfl, h⟩
  | cons op ops ih =>
    have hv' : op.valid net.replicas.length = true ∧
        P2POp.validCalls (op.sizeAfter net.replicas.length) ops = true := by
      simpa [P2POp.validCalls] using hv
    obtain ⟨n1, h1, hc1, hl1⟩ := P2PNetwork.step_inv net op hv'.1 h
    obtain ⟨n2, h2, hc2⟩ := ih n1 (by rw [hl1]; exact hv'.2) hc1
    refine ⟨n2, ?_, hc2⟩
    unfold P2PNetwork.run at h2 ⊢
    rw [List.foldlM_cons, h1]
    exact h2

theorem P2POp.validCalls_prefix (pre rest : List P2POp) (size : Nat)
    (hv : P2POp.validCalls size (pre ++ rest) = true) : P2POp.validCalls size pre = true := by
  induction pre generalizing size with
  | nil => rfl
  | cons op pre ih =>
    have hv' : op.valid size = true ∧
        P2POp.validCalls (op.sizeAfter size) (pre ++ rest) = true := by
      simpa [P2POp.validCalls] using hv
    simp [P2POp.validCalls, hv'.1, ih _ hv'.2]

theorem StarNetwork.setServerReplica_inv {α : Type} (net : StarNetwork α) (crdt : Ptr)
    (b : Bool) (hadm : entriesFor net.offline_set 0 = 0) (h : net.SlotsConsistent b) :
    (net.setServerReplica (some crdt)).1.SlotsConsistent true := by
  obtain ⟨h1, h2, _, _⟩ := h
  unfold StarNetwork.setServerReplica
  cases hr : net.replicas with
  | nil =>
    simp only [List.isEmpty_nil, if_true, List.nil_append]
    refine ⟨?_, ?_, ?_, ?_⟩
    · intro i hi _
      have e : i = 0 := by
        have : i < 1 := hi
        omega
      subst e
      exact SlotOK_active (p := crdt) rfl hadm
    · intro e he
      have := h2 e he
      rw [hr] at this
      exact absurd this (Nat.not_lt_zero _)
    · intro _
      exact Nat.zero_lt_one
    · intro hf
      cases hf
  | cons x xs =>
    simp only [List.isEmpty_cons, Bool.false_eq_true, if_false]
    have hpos : 0 < net.replicas.length := by rw [hr]; exact Nat.succ_pos _
    rw [← hr]
    refine ⟨?_, ?_, ?_, ?_⟩
    · intro i hi _
      have hi' : i < net.replicas.length := by
        have : i < (net.replicas.set 0 (some crdt)).length := hi
        rwa [List.length_set] at this
      by_cases hi0 : i = 0
      · subst hi0
        exact SlotOK_active (p := crdt) (List.getElem?_set_self hpos) hadm
      · exact SlotOK_congr (List.getElem?_set_ne (fun e => hi0 e.symm)) rfl
          (h1 i hi' (Or.inl (by omega)))
    · intro e he
      show e.1 < (net.replicas.set 0 (some crdt)).length
      rw [List.length_set]
      exact h2 e he
    · intro _
      show 0 < (net.replicas.set 0 (some crdt)).length
      rw [List.length_set]
      exact hpos
    · intro hf
      cases hf

theorem StarNetwork.star_add_inv {α : Type} (net : StarNetwork α) (crdt : Ptr) (b : Bool)
    (h : net.SlotsConsistent b) : (net.add (some crdt)).1.SlotsConsistent b := by
  obtain ⟨h1, h2, h3, h4⟩ := h
  unfold StarNetwork.add
  cases hr : net.replicas with
  | nil =>
    simp only [List.isEmpty_nil, if_true, List.nil_append]
    have hoff : net.offline_set = [] := by
      apply List.eq_nil_iff_forall_not_mem.2
      intro e he
      have := h2 e he
      rw [hr] at this
      exact absurd this (Nat.not_lt_zero _)
    have hb : b = false := by
      cases b with
      | false => rfl
      | true =>
        have := h3 rfl
        rw [hr] at this
        exact absurd this (Nat.not_lt_zero _)
    subst hb
    refine ⟨?_, ?_, ?_, ?_⟩
    · intro i hi hor
      have hi2 : i < 2 := hi
      have e : i = 1 := by
        rcases hor with h' | h'
        · omega
        · cases h'
      subst e
      apply SlotOK_active (p := crdt) rfl
      show entriesFor net.offline_set 1 = 0
      rw [hoff]
      rfl
    · intro e he
      have : e ∈ net.offline_set := he
      rw [hoff] at this
      cases this
    · intro hf
      cases hf
    · intro _
      refine ⟨Or.inr rfl, ?_⟩
      show entriesFor net.offline_set 0 = 0
      rw [hoff]
      rfl
  | cons x xs =>
    simp only [List.isEmpty_cons, Bool.false_eq_true, if_false]
    have hpos : 0 < net.replicas.length := by rw [hr]; exact Nat.succ_pos _
    rw [← hr]
    have hlen : (net.replicas ++ [some crdt]).length = net.replicas.length + 1 := by simp
    refine ⟨?_, ?_, ?_, ?_⟩
    · intro j hj hor
      have hj' : j < net.replicas.length + 1 := hlen ▸ hj
      by_cases hjl : j < net.replicas.length
      · exact SlotOK_congr (List.getElem?_append_left hjl) rfl (h1 j hjl hor)
      · have e : j = net.replicas.length := by omega
        subst e
        apply SlotOK_active (List.getElem?_concat_length _ _)
        rw [entriesFor_eq_zero]
        intro e he heq
        have := h2 e he
        omega
    · intro e he
      show e.1 < (net.replicas ++ [some crdt]).length
      rw [hlen]
      exact Nat.lt_succ_of_lt (h2 e he)
    · intro _
      show 0 < (net.replicas ++ [some crdt]).length
      rw [hlen]
      exact Nat.succ_pos _
    · intro hb
      obtain ⟨h5, h6⟩ := h4 hb
      refine ⟨Or.inr ?_, h6⟩
      show (net.replicas ++ [some crdt])[0]? = some none
      rw [List.getElem?_append_left hpos]
      rcases h5 with h5 | h5
      · rw [hr] at h5
        cases h5
      · exact h5

theorem StarNetwork.slot_in_scope {α : Type} {net : StarNetwork α} {b : Bool}
    (h : net.SlotsConsistent b) {i : Nat} (hi : i < net.replicas.length)
    (hne : net.replicas[i]? ≠ some none ∨ entriesFor net.offline_set i ≠ 0) :
    (1 ≤ i ∨ b = true) ∧ SlotOK net.replicas net.offline_set i := by
  have hor : 1 ≤ i ∨ b = true := by
    by_cases hi0 : 1 ≤ i
    · exact Or.inl hi0
    · right
      have e : i = 0 := by omega
      subst e
      cases b with
      | true => rfl
      | false =>
        obtain ⟨h5, h6⟩ := h.2.2.2 rfl
        rcases hne with hne | hne
        · rcases h5 with h5 | h5
          · rw [h5] at hi
            exact absurd hi (Nat.not_lt_zero _)
          · exact absurd h5 hne
        · exact absurd h6 hne
  exact ⟨hor, h.1 i hi hor⟩

theorem StarNetwork.star_disconnect_inv {α : Type} (net : StarNetwork α) (i : Nat) (b : Bool)
    (hi : i < net.replicas.length) (h : net.SlotsConsistent b) :
    ∃ net', net.disconnect i = .ok net' ∧ net'.SlotsConsistent b := by
  obtain ⟨x, hx⟩ : ∃ x, net.replicas[i]? = some x := ⟨_, List.getElem?_eq_getElem hi⟩
  rcases x with _ | p
  · refine ⟨net, ?_, h⟩
    unfold StarNetwork.disconnect
    rw [hx]
  · obtain ⟨hor, hok⟩ := StarNetwork.slot_in_scope h hi (Or.inl (by rw [hx]; simp))
    have h0 := SlotOK_entries_of_active hok hx
    refine ⟨⟨net.replicas.set i none, emplace net.offline_set (i, p), net.store⟩,
      ?_, ?_, ?_, ?_, ?_⟩
    · unfold StarNetwork.disconnect
      rw [hx]
    · intro j hj hjor
      have hj' : j < net.replicas.length := by
        have : j < (net.replicas.set i none).length := hj
        rwa [List.length_set] at this
      exact SlotOK_disconnect hx h0 j (Or.inr (h.1 j hj' hjor))
    · intro e he
      show e.1 < (net.replicas.set i none).length
      rw [List.length_set]
      rcases mem_emplace he with he' | rfl
      · exact h.2.1 e he'
      · exact hi
    · intro hb
      show 0 < (net.replicas.set i none).length
      rw [List.length_set]
      exact h.2.2.1 hb
    · intro hb
      obtain ⟨h5, h6⟩ := h.2.2.2 hb
      have hi1 : 1 ≤ i := by
        rcases hor with h' | h'
        · exact h'
        · rw [hb] at h'
          cases h'
      have hne : i ≠ 0 := by omega
      refine ⟨Or.inr ?_, ?_⟩
      · show (net.replicas.set i none)[0]? = some none
        rw [List.getElem?_set_ne hne]
        rcases h5 with h5 | h5
        · rw [h5] at hi
          exact absurd hi (Nat.not_lt_zero _)
        · exact h5
      · show entriesFor (emplace net.offline_set (i, p)) 0 = 0
        rw [emplace_of_no_entry _ _ _ h0, entriesFor_append_single, if_neg hne, h6]

theorem StarNetwork.star_reconnect_inv {α : Type} (net : StarNetwork α) (i : Nat) (b : Bool)
    (h : net.SlotsConsistent b) :
    ∃ net', net.reconnect i = .ok net' ∧ net'.SlotsConsistent b := by
  rcases Option.eq_none_or_eq_some (net.offline_set.find? fun e => e.1 == i) with hf | ⟨it, hf⟩
  · refine ⟨net, ?_, h⟩
    unfold StarNetwork.reconnect
    rw [hf]
  · obtain ⟨hit, hit1⟩ := find?_entry hf
    have hi : i < net.replicas.length := hit1 ▸ h.2.1 it hit
    have hpos : 0 < entriesFor net.offline_set i := by
      unfold entriesFor
      rw [List.countP_pos_iff]
      exact ⟨it, hit, by simp [hit1]⟩
    obtain ⟨hor, hok⟩ := StarNetwork.slot_in_scope h hi (Or.inr (by omega))
    obtain ⟨x, hx⟩ : ∃ x, net.replicas[i]? = some x := ⟨_, List.getElem?_eq_getElem hi⟩
    rcases x with _ | p
    · have h1 := SlotOK_entries_of_null hok hx
      refine ⟨⟨net.replicas.set i (some it.2), net.offline_set.erase it, net.store⟩,
        ?_, ?_, ?_, ?_, ?_⟩
      · unfold StarNetwork.reconnect
        rw [hf]
        simp only
        rw [hx]
      · intro j hj hjor
        have hj' : j < net.replicas.length := by
          have : j < (net.replicas.set i (some it.2)).length := hj
          rwa [List.length_set] at this
        exact SlotOK_reconnect hx hit hit1 h1 j (Or.inr (h.1 j hj' hjor))
      · intro e he
        show e.1 < (net.replicas.set i (some it.2)).length
        rw [List.length_set]
        exact h.2.1 e (List.mem_of_mem_erase he)
      · intro hb
        show 0 < (net.replicas.set i (some it.2)).length
        rw [List.length_set]
        exact h.2.2.1 hb
      · intro hb
        obtain ⟨h5, h6⟩ := h.2.2.2 hb
        have hi1 : 1 ≤ i := by
          rcases hor with h' | h'
          · exact h'
          · rw [hb] at h'
            cases h'
        have hne : i ≠ 0 := by omega
        refine ⟨Or.inr ?_, ?_⟩
        · show (net.replicas.set i (some it.2))[0]? = some none
          rw [List.getElem?_set_ne hne]
          rcases h5 with h5 | h5
          · rw [h5] at hi
            exact absurd hi (Nat.not_lt_zero _)
          · exact h5
        · show entriesFor (net.offline_set.erase it) 0 = 0
          have := entriesFor_erase net.offline_set it 0 hit
          omega
    · have h0 := SlotOK_entries_of_active hok hx
      omega

theorem StarNetwork.star_SlotsConsistent_of_shape {α : Type} {net net' : StarNetwork α} {b : Bool}
    (hr : net'.replicas = net.replicas) (ho : net'.offline_set = net.offline_set)
    (h : net.SlotsConsistent b) : net'.SlotsConsistent b := by
  unfold StarNetwork.SlotsConsistent
  rw [hr, ho]
  exact h

theorem StarNetwork.star_step_inv {α S : Type} [SemilatticeSup S] [CRDT α] [JoinCRDT α S]
    (net : StarNetwork α) (op : StarOp) (b : Bool)
    (hadm : op.admissible net.replicas net.offline_set = true) (h : net.SlotsConsistent b) :
    ∃ net', net.step op = .ok net' ∧ net'.SlotsConsistent (b || op.isSetServerReplica) := by
  cases op with
  | setServerReplica crdt =>
    have h0 : entriesFor net.offline_set 0 = 0 := by simpa [StarOp.admissible] using hadm
    refine ⟨_, rfl, ?_⟩
    have e : (b || StarOp.isSetServerReplica (.setServerReplica crdt)) = true := by
      simp [StarOp.isSetServerReplica]
    rw [e]
    exact StarNetwork.setServerReplica_inv net crdt b h0 h
  | add crdt =>
    refine ⟨_, rfl, ?_⟩
    have e : (b || StarOp.isSetServerReplica (.add crdt)) = b := by
      simp [StarOp.isSetServerReplica]
    rw [e]
    exact StarNetwork.star_add_inv net crdt b h
  | disconnect i =>
    have hi : i < net.replicas.length := by simpa [StarOp.admissible] using hadm
    have e : (b || StarOp.isSetServerReplica (.disconnect i)) = b := by
      simp [StarOp.isSetServerReplica]
    rw [e]
    exact StarNetwork.star_disconnect_inv net i b hi h
  | reconnect i =>
    have e : (b || StarOp.isSetServerReplica (.reconnect i)) = b := by
      simp [StarOp.isSetServerReplica]
    rw [e]
    exact StarNetwork.star_reconnect_inv net i b h
  | syncWithServer i =>
    have hi : i < net.replicas.length := by simpa [StarOp.admissible] using hadm
    have e : (b || StarOp.isSetServerReplica (.syncWithServer i)) = b := by
      simp [StarOp.isSetServerReplica]
    rw [e]
    obtain ⟨net', h1, hr, ho, _⟩ := StarNetwork.syncWithServer_step net i hi
    exact ⟨net', h1, StarNetwork.star_SlotsConsistent_of_shape hr ho h⟩
  | syncAllReplicasToServer =>
    have e : (b || StarOp.isSetServerReplica .syncAllReplicasToServer) = b := by
      simp [StarOp.isSetServerReplica]
    rw [e]
    obtain ⟨net', h1, hr, ho, _⟩ := StarNetwork.syncAll_round net
    exact ⟨net', h1, StarNetwork.star_SlotsConsistent_of_shape hr ho h⟩

theorem StarNetwork.star_run_inv {α S : Type} [SemilatticeSup S] [CRDT α] [JoinCRDT α S]
    (ops : List StarOp) (net : StarNetwork α) (b : Bool)
    (hv : net.admissibleRun ops = true) (h : net.SlotsConsistent b) :
    ∃ net', net.run ops = .ok net' ∧
      net'.SlotsConsistent (b || ops.any StarOp.isSetServerReplica) := by
  induction ops generalizing net b with
  | nil => exact ⟨net, rfl, by simpa using h⟩
  | cons op ops ih =>
    unfold StarNetwork.admissibleRun at hv
    rw [Bool.and_eq_true] at hv
    obtain ⟨n1, h1, hc1⟩ := StarNetwork.star_step_inv net op b hv.1 h
    have hv2 := hv.2
    rw [h1] at hv2
    obtain ⟨n2, h2, hc2⟩ := ih n1 _ hv2 hc1
    refine ⟨n2, ?_, ?_⟩
    · unfold StarNetwork.run at h2 ⊢
      rw [List.foldlM_cons, h1]
      exact h2
    · rw [List.any_cons, ← Bool.or_assoc]
      exact hc2

theorem StarNetwork.admissibleRun_prefix {α : Type} [CRDT α] (pre rest : List StarOp)
    (net : StarNetwork α) (hv : net.admissibleRun (pre ++ rest) = true) :
    net.admissibleRun pre = true := by
  induction pre generalizing net with
  | nil => rfl
  | cons op pre ih =>
    rw [List.cons_append] at hv
    unfold StarNetwork.admissibleRun at hv ⊢
    rw [Bool.and_eq_true] at hv ⊢
    refine ⟨hv.1, ?_⟩
    have hv2 := hv.2
    cases hstep : net.step op with
    | error e => rfl
    | ok n1 =>
      rw [hstep] at hv2
      exact ih n1 hv2

/-! ## Instances of the network theorems, offline isolation and no-ops -/

/-- C6. `broadcast(i)` from an active slot `i` holding the counter `src`
completes; it leaves the slot sequence and the offline set unchanged; the
state of every other active replica `j` becomes the state of
`merge(state_j, state_i)`, taken with the source's state before the call; the
source's state is unchanged; and every counter that no active slot other than
`i` refers to (every offline replica, and the source object itself) is left
exactly as it was. -/
theorem P2PNetwork.broadcast_spec {α S : Type} [SemilatticeSup S] [CRDT α] [JoinCRDT α S]
    (net : P2PNetwork α) (i : Nat) (src : Ptr)
    (hi : net.replicas[i]? = some (some src)) :
    ∃ net', net.broadcast i = .ok net' ∧
      net'.replicas = net.replicas ∧ net'.offline_set = net.offline_set ∧
      (∀ j q, j ≠ i → net.replicas[j]? = some (some q) →
        JoinCRDT.state (net'.store q)
          = JoinCRDT.state (CRDT.merge (net.store q) (net.store src))) ∧
      JoinCRDT.state (net'.store src) = JoinCRDT.state (net.store src) ∧
      (∀ q, (∀ j, j ≠ i → net.replicas[j]? ≠ some (some q)) →
        net'.store q = net.store q) := by
  refine ⟨⟨net.replicas, net.offline_set, (List.range net.replicas.length).foldl
      (P2PNetwork.deliver net.replicas i src) net.store⟩, ?_, rfl, rfl, ?_, ?_, ?_⟩
  · unfold P2PNetwork.broadcast
    rw [hi]
  · intro j q hj hq
    rw [JoinCRDT.state_merge]
    apply P2PNetwork.deliver_fold_target
    refine ⟨j, ?_, hj, hq⟩
    rw [List.mem_range]
    by_contra hlt
    rw [List.getElem?_eq_none (Nat.le_of_not_lt hlt)] at hq
    cases hq
  · exact P2PNetwork.deliver_fold_source _ _ _ _ _
  · intro q hq
    exact P2PNetwork.deliver_fold_frame _ _ _ _ _ _ fun j _ hj => hq j hj

/-- Witness for C6: `broadcast(0)` on `p2pExample`. -/
theorem P2PNetwork.broadcast_spec_witness :
    p2pExample.replicas[0]? = some (some 0) ∧
    ∃ net', p2pExample.broadcast 0 = .ok net' ∧
      net'.replicas = p2pExample.replicas ∧ net'.offline_set = p2pExample.offline_set ∧
      (∀ j q, j ≠ 0 → p2pExample.replicas[j]? = some (some q) →
        JoinCRDT.state (net'.store q)
          = JoinCRDT.state (CRDT.merge (p2pExample.store q) (p2pExample.store 0))) ∧
      JoinCRDT.state (net'.store 0) = JoinCRDT.state (p2pExample.store 0) ∧
      (∀ q, (∀ j, j ≠ 0 → p2pExample.replicas[j]? ≠ some (some q)) →
        net'.store q = p2pExample.store q) :=
  ⟨rfl, P2PNetwork.broadcast_spec p2pExample 0 0 rfl⟩

/-- Witness for C3: `broadcastAll()` on `p2pExample`. -/
theorem P2PNetwork.broadcastAll_spec_witness :
    (∃ p, some p ∈ p2pExample.replicas) ∧
    ∃ net', p2pExample.broadcastAll = .ok net' ∧
      net'.replicas = p2pExample.replicas ∧ net'.offline_set = p2pExample.offline_set ∧
      (∀ q, some q ∈ p2pExample.replicas →
        JoinCRDT.state (net'.store q)
          = joinAll ((p2pExample.replicas.filterMap id).map
              fun p => JoinCRDT.state (p2pExample.store p))) ∧
      (∀ q, some q ∉ p2pExample.replicas → net'.store q = p2pExample.store q) ∧
      (p2pExample.offline_set = [] → net'.countPartitions = 1) :=
  ⟨⟨0, by decide⟩, P2PNetwork.broadcastAll_spec p2pExample ⟨0, by decide⟩⟩

/-- C5. For a client index `i ≥ 1` whose slot is active (counter `pc`) and an
active server (counter `ps`), `syncWithServer(i)` completes, so its final
assertion holds; afterwards client and server hold the same state, the join
of their two states before the call, and `client.query() == server.query()`;
the slot sequence, the offline set and every other counter are unchanged. -/
theorem StarNetwork.syncWithServer_spec {α S : Type} [SemilatticeSup S] [CRDT α]
    [JoinCRDT α S] (net : StarNetwork α) (i : Nat) (ps pc : Ptr) (hi : 1 ≤ i)
    (hs : net.replicas[0]? = some (some ps)) (hc : net.replicas[i]? = some (some pc)) :
    ∃ net', net.syncWithServer i = .ok net' ∧
      net'.replicas = net.replicas ∧ net'.offline_set = net.offline_set ∧
      JoinCRDT.state (net'.store pc)
        = JoinCRDT.state (net.store pc) ⊔ JoinCRDT.state (net.store ps) ∧
      JoinCRDT.state (net'.store ps)
        = JoinCRDT.state (net.store pc) ⊔ JoinCRDT.state (net.store ps) ∧
      CRDT.query (net'.store pc) = CRDT.query (net'.store ps) ∧
      (∀ p, p ≠ pc → p ≠ ps → net'.store p = net.store p) := by
  have hi0 : i ≠ 0 := by omega
  obtain ⟨store1, hstore1⟩ : ∃ f, f = Function.update net.store pc
      (CRDT.merge (net.store pc) (net.store ps)) := ⟨_, rfl⟩
  obtain ⟨store2, hstore2⟩ : ∃ f, f = Function.update store1 ps
      (CRDT.merge (store1 ps) (net.store pc)) := ⟨_, rfl⟩
  have e2 : JoinCRDT.state (store2 ps)
      = JoinCRDT.state (net.store pc) ⊔ JoinCRDT.state (net.store ps) := by
    rw [hstore2, Function.update_same, JoinCRDT.state_merge]
    by_cases hp : ps = pc
    · rw [hstore1, hp, Function.update_same, JoinCRDT.state_merge]
      exact sup_eq_left.2 le_sup_left
    · rw [hstore1, Function.update_noteq hp]
      exact sup_comm _ _
  have e1 : JoinCRDT.state (store2 pc)
      = JoinCRDT.state (net.store pc) ⊔ JoinCRDT.state (net.store ps) := by
    by_cases hp : pc = ps
    · rw [hp] at e2 ⊢
      exact e2
    · rw [hstore2, Function.update_noteq hp, hstore1, Function.update_same,
        JoinCRDT.state_merge]
  have hq : CRDT.query (store2 pc) = CRDT.query (store2 ps) :=
    JoinCRDT.query_congr _ _ (e1.trans e2.symm)
  refine ⟨⟨net.replicas, net.offline_set, store2⟩, ?_, rfl, rfl, e1, e2, hq, ?_⟩
  · unfold StarNetwork.syncWithServer
    rw [if_neg hi0, hs, hc]
    simp only
    rw [← hstore1, ← hstore2, if_pos hq]
  · intro p h1 h2
    show store2 p = net.store p
    rw [hstore2, Function.update_noteq h2, hstore1, Function.update_noteq h1]

/-- Witness for C5: `syncWithServer(1)` on `starExample`. -/
theorem StarNetwork.syncWithServer_spec_witness :
    1 ≤ 1 ∧ starExample.replicas[0]? = some (some 0) ∧
    starExample.replicas[1]? = some (some 1) ∧
    ∃ net', starExample.syncWithServer 1 = .ok net' ∧
      net'.replicas = starExample.replicas ∧ net'.offline_set = starExample.offline_set ∧
      JoinCRDT.state (net'.store 1)
        = JoinCRDT.state (starExample.store 1) ⊔ JoinCRDT.state (starExample.store 0) ∧
      JoinCRDT.state (net'.store 0)
        = JoinCRDT.state (starExample.store 1) ⊔ JoinCRDT.state (starExample.store 0) ∧
      CRDT.query (net'.store 1) = CRDT.query (net'.store 0) ∧
      (∀ p, p ≠ 1 → p ≠ 0 → net'.store p = starExample.store p) :=
  ⟨Nat.le_refl 1, rfl, rfl,
    StarNetwork.syncWithServer_spec starExample 1 0 1 (Nat.le_refl 1) rfl rfl⟩

/-- Witness for C4: two rounds on `starExample`. -/
theorem StarNetwork.two_rounds_converge_witness :
    starExample.replicas[0]? = some (some 0) ∧
    ∃ net1 net2, starExample.syncAllReplicasToServer = .ok net1 ∧
      net1.syncAllReplicasToServer = .ok net2 ∧
      net2.replicas = starExample.replicas ∧ net2.offline_set = starExample.offline_set ∧
      (∀ q, some q ∈ starExample.replicas →
        JoinCRDT.state (net2.store q)
          = joinAll ((starExample.replicas.filterMap id).map
              fun p => JoinCRDT.state (starExample.store p))) ∧
      (starExample.offline_set = [] → net2.countPartitions = 1) :=
  ⟨rfl, StarNetwork.two_rounds_converge starExample 0 rfl⟩

/-- C7. A counter `p` that no active slot refers to (an offline replica) keeps
its state, hence its `query()`, across `broadcast(i)` and `broadcastAll()` of a
`P2PNetwork` and across `syncWithServer(i)` and `syncAllReplicasToServer()` of
a `StarNetwork`, for every valid index `i`; all four calls complete. -/
theorem offline_isolation {α S : Type} [SemilatticeSup S] [CRDT α] [JoinCRDT α S] :
    (∀ (net : P2PNetwork α) (p : Ptr) (i : Nat), some p ∉ net.replicas →
      i < net.replicas.length →
      ∃ net', net.broadcast i = .ok net' ∧ net'.store p = net.store p ∧
        CRDT.query (net'.store p) = CRDT.query (net.store p)) ∧
    (∀ (net : P2PNetwork α) (p : Ptr), some p ∉ net.replicas →
      ∃ net', net.broadcastAll = .ok net' ∧ net'.store p = net.store p ∧
        CRDT.query (net'.store p) = CRDT.query (net.store p)) ∧
    (∀ (net : StarNetwork α) (p : Ptr) (i : Nat), some p ∉ net.replicas →
      i < net.replicas.length →
      ∃ net', net.syncWithServer i = .ok net' ∧ net'.store p = net.store p ∧
        CRDT.query (net'.store p) = CRDT.query (net.store p)) ∧
    (∀ (net : StarNetwork α) (p : Ptr), some p ∉ net.replicas →
      ∃ net', net.syncAllReplicasToServer = .ok net' ∧ net'.store p = net.store p ∧
        CRDT.query (net'.store p) = CRDT.query (net.store p)) := by
  refine ⟨?_, ?_, ?_, ?_⟩
  · intro net p i hp hi
    obtain ⟨net', h1, _, _, hs, _⟩ := P2PNetwork.broadcast_step net i hi
    exact ⟨net', h1, hs.1 p hp, by rw [hs.1 p hp]⟩
  · intro net p hp
    obtain ⟨net', h1, _, _, hs, _⟩ :=
      P2PNetwork.broadcast_fold (List.range net.replicas.length) net
        (fun i hi => List.mem_range.1 hi)
    exact ⟨net', h1, hs.1 p hp, by rw [hs.1 p hp]⟩
  · intro net p i hp hi
    obtain ⟨net', h1, _, _, hs, _⟩ := StarNetwork.syncWithServer_step net i hi
    exact ⟨net', h1, hs.1 p hp, by rw [hs.1 p hp]⟩
  · intro net p hp
    obtain ⟨net', h1, _, _, hs, _⟩ := StarNetwork.syncAll_round net
    exact ⟨net', h1, hs.1 p hp, by rw [hs.1 p hp]⟩

/-- Witness for C7: the offline counter 2 of `p2pExample` and `starExample`. -/
theorem offline_isolation_witness :
    (∃ net', p2pExample.broadcast 0 = .ok net' ∧ net'.store 2 = p2pExample.store 2 ∧
        CRDT.query (net'.store 2) = CRDT.query (p2pExample.store 2)) ∧
    (∃ net', p2pExample.broadcastAll = .ok net' ∧ net'.store 2 = p2pExample.store 2 ∧
        CRDT.query (net'.store 2) = CRDT.query (p2pExample.store 2)) ∧
    (∃ net', starExample.syncWithServer 1 = .ok net' ∧ net'.store 2 = starExample.store 2 ∧
        CRDT.query (net'.store 2) = CRDT.query (starExample.store 2)) ∧
    (∃ net', starExample.syncAllReplicasToServer = .ok net' ∧
        net'.store 2 = starExample.store 2 ∧
        CRDT.query (net'.store 2) = CRDT.query (starExample.store 2)) :=
  ⟨offline_isolation.1 p2pExample 2 0 (by decide) (by decide),
   offline_isolation.2.1 p2pExample 2 (by decide),
   offline_isolation.2.2.1 starExample 2 1 (by decide) (by decide),
   offline_isolation.2.2.2 starExample 2 (by decide)⟩

/-- C8. Each no-op condition returns the network exactly as it was (slot
sequence, offline set and store): `disconnect(i)` on an offline slot,
`reconnect(i)` on a slot with no entry in the offline set, P2P `broadcast(i)`
from an offline slot, and Star `syncWithServer(i)` when `i == 0`, when the
client slot is offline, or when the server slot is offline. -/
theorem noop_conditions {α : Type} [CRDT α] :
    (∀ (net : P2PNetwork α) (i : Nat), net.replicas[i]? = some none →
      net.disconnect i = .ok net) ∧
    (∀ (net : P2PNetwork α) (i : Nat), (∀ e ∈ net.offline_set, e.1 ≠ i) →
      net.reconnect i = .ok net) ∧
    (∀ (net : P2PNetwork α) (i : Nat), net.replicas[i]? = some none →
      net.broadcast i = .ok net) ∧
    (∀ (net : StarNetwork α) (i : Nat), net.replicas[i]? = some none →
      net.disconnect i = .ok net) ∧
    (∀ (net : StarNetwork α) (i : Nat), (∀ e ∈ net.offline_set, e.1 ≠ i) →
      net.reconnect i = .ok net) ∧
    (∀ (net : StarNetwork α), net.syncWithServer 0 = .ok net) ∧
    (∀ (net : StarNetwork α) (i : Nat), net.replicas[i]? = some none →
      net.syncWithServer i = .ok net) ∧
    (∀ (net : StarNetwork α) (i : Nat), i < net.replicas.length →
      net.replicas[0]? = some none → net.syncWithServer i = .ok net) := by
  refine ⟨?_, ?_, ?_, ?_, ?_, ?_, ?_, ?_⟩
  · intro net i h
    unfold P2PNetwork.disconnect
    rw [h]
  · intro net i h
    unfold P2PNetwork.reconnect
    rw [find?_fst_eq_none h]
  · intro net i h
    unfold P2PNetwork.broadcast
    rw [h]
  · intro net i h
    unfold StarNetwork.disconnect
    rw [h]
  · intro net i h
    unfold StarNetwork.reconnect
    rw [find?_fst_eq_none h]
  · intro net
    unfold StarNetwork.syncWithServer
    rw [if_pos rfl]
  · intro net i h
    unfold StarNetwork.syncWithServer
    by_cases hi0 : i = 0
    · rw [if_pos hi0]
    · rw [if_neg hi0]
      have hlt : i < net.replicas.length := by
        by_contra hge
        rw [List.getElem?_eq_none (Nat.le_of_not_lt hge)] at h
        cases h
      have h0 : 0 < net.replicas.length := by omega
      rw [List.getElem?_eq_getElem h0, h]
  · intro net i hi h0
    unfold StarNetwork.syncWithServer
    by_cases hi0 : i = 0
    · rw [if_pos hi0]
    · rw [if_neg hi0, h0, List.getElem?_eq_getElem hi]
      cases net.replicas[i] <;> rfl

/-- Witness for C8 on `p2pExample`, `starExample` and `starServerDown`. -/
theorem noop_conditions_witness :
    p2pExample.disconnect 2 = .ok p2pExample ∧
    p2pExample.reconnect 1 = .ok p2pExample ∧
    p2pExample.broadcast 2 = .ok p2pExample ∧
    starExample.disconnect 2 = .ok starExample ∧
    starExample.reconnect 1 = .ok starExample ∧
    starExample.syncWithServer 0 = .ok starExample ∧
    starExample.syncWithServer 2 = .ok starExample ∧
    starServerDown.syncWithServer 1 = .ok starServerDown :=
  ⟨noop_conditions.1 p2pExample 2 rfl,
   noop_conditions.2.1 p2pExample 1 (by decide),
   noop_conditions.2.2.1 p2pExample 2 rfl,
   noop_conditions.2.2.2.1 starExample 2 rfl,
   noop_conditions.2.2.2.2.1 starExample 1 (by decide),
   noop_conditions.2.2.2.2.2.1 starExample,
   noop_conditions.2.2.2.2.2.2.1 starExample 2 rfl,
   noop_conditions.2.2.2.2.2.2.2 starServerDown 1 (by decide) rfl⟩

/-- C9. A `P2PNetwork` is built from the empty network by any sequence of
`add` (non-null reference), `disconnect`, `reconnect`, `broadcast` and
`broadcastAll` calls with valid indices.  Every call completes, and after
every prefix of the sequence (at all times) each slot index is either active
with no entry in the offline set, or null with exactly one entry in the
offline set (`SlotOK`): never both, never neither, never two entries. -/
theorem P2PNetwork.slot_invariant {α : Type} [CRDT α] (store : Ptr → α) (ops : List P2POp)
    (hv : P2POp.validCalls 0 ops = true) :
    ∀ pre, pre <+: ops →
      ∃ net', (P2PNetwork.empty store).run pre = .ok net' ∧
        ∀ i, i < net'.replicas.length → SlotOK net'.replicas net'.offline_set i := by
  rintro pre ⟨rest, rfl⟩
  have h0 : (P2PNetwork.empty store).SlotsConsistent :=
    ⟨fun i hi => absurd hi (Nat.not_lt_zero i), fun e he => by cases he⟩
  obtain ⟨net', h1, h2⟩ := P2PNetwork.run_inv pre (P2PNetwork.empty store)
    (P2POp.validCalls_prefix pre rest 0 hv) h0
  exact ⟨net', h1, h2.1⟩

/-- Witness for C9: the calls of `simulateGCountersInP2PNetwork`. -/
theorem P2PNetwork.slot_invariant_witness :
    P2POp.validCalls 0 p2pScenarioCalls = true ∧
    ∀ pre, pre <+: p2pScenarioCalls →
      ∃ net', (P2PNetwork.empty exampleStore).run pre = .ok net' ∧
        ∀ i, i < net'.replicas.length → SlotOK net'.replicas net'.offline_set i :=
  ⟨by decide, P2PNetwork.slot_invariant exampleStore p2pScenarioCalls (by decide)⟩

/-- C10, as amended.  A `StarNetwork` is built from the empty network by any
sequence of `setServerReplica`, `add` (non-null references), `disconnect`,
`reconnect`, `syncWithServer` and `syncAllReplicasToServer` calls with valid
indices in which `setServerReplica` is never called while slot 0 has an entry in
the offline set.  Every call completes, and after every prefix of the
sequence each client slot `i ≥ 1` is in exactly one of the two states (active
without entry, or null with exactly one entry in the offline set); so is
slot 0 once `setServerReplica` has been called; before that, slot 0, if it
exists, is the null placeholder pushed by `add` and has no entry in the
offline set. -/
theorem StarNetwork.star_slot_invariant {α S : Type} [SemilatticeSup S] [CRDT α] [JoinCRDT α S]
    (store : Ptr → α) (ops : List StarOp)
    (hv : (StarNetwork.empty store).admissibleRun ops = true) :
    ∀ pre, pre <+: ops →
      ∃ net', (StarNetwork.empty store).run pre = .ok net' ∧
        (∀ i, 1 ≤ i → i < net'.replicas.length → SlotOK net'.replicas net'.offline_set i) ∧
        (pre.any StarOp.isSetServerReplica = true → SlotOK net'.replicas net'.offline_set 0) ∧
        (pre.any StarOp.isSetServerReplica = false → 0 < net'.replicas.length →
          net'.replicas[0]? = some none ∧ entriesFor net'.offline_set 0 = 0) := by
  rintro pre ⟨rest, rfl⟩
  have h0 : (StarNetwork.empty store).SlotsConsistent false :=
    ⟨fun i hi _ => absurd hi (Nat.not_lt_zero i), fun e he => (by cases he),
      fun hf => (by cases hf), fun _ => ⟨Or.inl rfl, rfl⟩⟩
  obtain ⟨net', h1, h2⟩ := StarNetwork.star_run_inv pre (StarNetwork.empty store) false
    (StarNetwork.admissibleRun_prefix pre rest _ hv) h0
  rw [Bool.false_or] at h2
  refine ⟨net', h1, ?_, ?_, ?_⟩
  · intro i hi1 hi
    exact h2.1 i hi (Or.inl hi1)
  · intro hb
    exact h2.1 0 (h2.2.2.1 hb) (Or.inr hb)
  · intro hb hpos
    obtain ⟨h5, h6⟩ := h2.2.2.2 hb
    refine ⟨?_, h6⟩
    rcases h5 with h5 | h5
    · rw [h5] at hpos
      exact absurd hpos (Nat.not_lt_zero _)
    · exact h5

/-- Counterexample to C10 as stated.  After a single `add` on an empty
`StarNetwork`, slot 0 exists but is neither active nor present in the offline
set; after `setServerReplica`, `disconnect(0)`, `setServerReplica`, slot 0 is
both active and present in the offline set; and after `add` with a null
reference the new client slot is neither active nor present in the offline
set. -/
theorem StarNetwork.star_slot_invariant_counterexample :
    (∃ net', (StarNetwork.empty exampleStore).run [.add 1] = .ok net' ∧
      0 < net'.replicas.length ∧ net'.replicas[0]? = some none ∧
      entriesFor net'.offline_set 0 = 0 ∧
      ¬ SlotOK net'.replicas net'.offline_set 0) ∧
    (∃ net', (StarNetwork.empty exampleStore).run
        [.setServerReplica 0, .disconnect 0, .setServerReplica 4] = .ok net' ∧
      0 < net'.replicas.length ∧ net'.replicas[0]? = some (some 4) ∧
      entriesFor net'.offline_set 0 = 1 ∧
      ¬ SlotOK net'.replicas net'.offline_set 0) ∧
    (((StarNetwork.empty exampleStore).setServerReplica (some 0)).1.add none).1.replicas[1]?
        = some none ∧
      entriesFor
        (((StarNetwork.empty exampleStore).setServerReplica (some 0)).1.add none).1.offline_set 1
        = 0 :=
  ⟨⟨⟨[none, some 1], [], exampleStore⟩, rfl, by decide, rfl, rfl, by decide⟩,
   ⟨⟨[some 4], [(0, 0)], exampleStore⟩, rfl, by decide, rfl, rfl, by decide⟩,
   rfl, rfl⟩

/-- Witness for C10 (amended): the calls of `simulateGCountersInStarNetwork`. -/
theorem StarNetwork.star_slot_invariant_witness :
    (StarNetwork.empty exampleStore).admissibleRun starScenarioCalls = true ∧
    ∀ pre, pre <+: starScenarioCalls →
      ∃ net', (StarNetwork.empty exampleStore).run pre = .ok net' ∧
        (∀ i, 1 ≤ i → i < net'.replicas.length → SlotOK net'.replicas net'.offline_set i) ∧
        (pre.any StarOp.isSetServerReplica = true → SlotOK net'.replicas net'.offline_set 0) ∧
        (pre.any StarOp.isSetServerReplica = false → 0 < net'.replicas.length →
          net'.replicas[0]? = some none ∧ entriesFor net'.offline_set 0 = 0) :=
  ⟨by decide, StarNetwork.star_slot_invariant exampleStore starScenarioCalls (by decide)⟩

/-! ## `GCounter`: increments and monotonicity -/

theorem Counts.total_le_of_le {a b : Counts} (h : a ≤ b) : a.total ≤ b.total := by
  unfold Counts.total
  calc a.dom.sum a.val ≤ a.dom.sum b.val := Finset.sum_le_sum fun k _ => h.2 k
    _ ≤ b.dom.sum b.val := Finset.sum_le_sum_of_subset h.1

theorem Counts.le_add (c : Counts) (key : Identity) (delta : Nat) : c ≤ c.add key delta := by
  refine ⟨Finset.subset_insert _ _, ?_⟩
  intro k
  show c.val k ≤ if k = key then c.val k + delta else c.val k
  by_cases hk : k = key
  · rw [if_pos hk]; exact Nat.le_add_right _ _
  · rw [if_neg hk]

theorem GCounter.call_mono (c : GCounter) (x : GCounterCall) (hx : x.nonNegative = true) :
    ∃ c', c.call x = .ok c' ∧ c.counts ≤ c'.counts := by
  cases x with
  | increment delta =>
    have hd : ¬ delta < 0 := by
      have : 0 ≤ delta := by simpa [GCounterCall.nonNegative] using hx
      omega
    refine ⟨{ c with counts := c.counts.add c.name delta.toNat }, ?_, Counts.le_add _ _ _⟩
    show c.increment delta = _
    unfold GCounter.increment
    rw [if_neg hd]
  | merge other =>
    exact ⟨c.merge other, rfl, le_sup_left⟩

theorem GCounter.calls_ok (l : List GCounterCall) (c : GCounter)
    (h : l.all GCounterCall.nonNegative = true) : ∃ c', c.calls l = .ok c' := by
  induction l generalizing c with
  | nil => exact ⟨c, rfl⟩
  | cons x l ih =>
    rw [List.all_cons, Bool.and_eq_true] at h
    obtain ⟨c1, h1, _⟩ := GCounter.call_mono c x h.1
    obtain ⟨c2, h2⟩ := ih c1 h.2
    refine ⟨c2, ?_⟩
    unfold GCounter.calls at h2 ⊢
    rw [List.foldlM_cons, h1]
    exact h2

/-- C13. `GCounter.increment(delta)`: with `delta < 0` it fails with
`InvalidArgument` and yields no new state (nothing is applied, nothing is
clamped to 0); with `delta ≥ 0` it succeeds, the entry under the counter's own
name exists afterwards and has grown by `delta` (from 0 if it was absent),
every other entry and the set of other keys are unchanged, and `query()` has
grown by exactly `delta`. -/
theorem GCounter.increment_contract (c : GCounter) (delta : Int) :
    (delta < 0 → c.increment delta = .error .InvalidArgument) ∧
    (0 ≤ delta → ∃ c', c.increment delta = .ok c' ∧ c'.name = c.name ∧
      c'.counts.dom = insert c.name c.counts.dom ∧
      (c'.counts.val c.name : Int) = c.counts.val c.name + delta ∧
      (∀ k, k ≠ c.name → c'.counts.val k = c.counts.val k) ∧
      (c'.query : Int) = c.query + delta) := by
  constructor
  · intro h
    unfold GCounter.increment
    rw [if_pos h]
  · intro h
    have hd : ¬ delta < 0 := by omega
    have hnat : ((delta.toNat : Nat) : Int) = delta := Int.toNat_of_nonneg h
    refine ⟨{ c with counts := c.counts.add c.name delta.toNat }, ?_, rfl, rfl, ?_, ?_, ?_⟩
    · unfold GCounter.increment
      rw [if_neg hd]
    · show (((if c.name = c.name then c.counts.val c.name + delta.toNat
          else c.counts.val c.name : Nat)) : Int) = _
      rw [if_pos rfl]
      push_cast
      rw [hnat]
    · intro k hk
      show (if k = c.name then c.counts.val k + delta.toNat else c.counts.val k) = _
      rw [if_neg hk]
    · show ((Counts.total (c.counts.add c.name delta.toNat) : Nat) : Int)
          = ((c.counts.total : Nat) : Int) + delta
      rw [Counts.total_add]
      push_cast
      rw [hnat]

/-- Witness for C13: a rejected and an accepted increment of a fresh counter. -/
theorem GCounter.increment_contract_witness :
    (GCounter.new "A").increment (-1) = .error .InvalidArgument ∧
    ∃ c', (GCounter.new "A").increment 3 = .ok c' ∧ c'.name = (GCounter.new "A").name ∧
      c'.counts.dom = insert (GCounter.new "A").name (GCounter.new "A").counts.dom ∧
      (c'.counts.val (GCounter.new "A").name : Int)
        = (GCounter.new "A").counts.val (GCounter.new "A").name + 3 ∧
      (∀ k, k ≠ (GCounter.new "A").name →
        c'.counts.val k = (GCounter.new "A").counts.val k) ∧
      (c'.query : Int) = (GCounter.new "A").query + 3 :=
  ⟨(GCounter.increment_contract (GCounter.new "A") (-1)).1 (by decide),
   (GCounter.increment_contract (GCounter.new "A") 3).2 (by decide)⟩

/-- C12. Along every sequence of `merge` calls and `increment` calls with
non-negative delta on a `GCounter`, every call completes, and from the state
before a call to the state after it no key disappears, the value stored under
every key does not decrease, and `query()` does not decrease. -/
theorem GCounter.calls_monotone (c : GCounter) (l : List GCounterCall)
    (h : l.all GCounterCall.nonNegative = true) :
    ∀ pre x, pre ++ [x] <+: l →
      ∃ c1 c2, c.calls pre = .ok c1 ∧ c1.call x = .ok c2 ∧
        c.calls (pre ++ [x]) = .ok c2 ∧
        c1.counts.dom ⊆ c2.counts.dom ∧
        (∀ k, c1.counts.val k ≤ c2.counts.val k) ∧
        c1.query ≤ c2.query := by
  rintro pre x ⟨rest, rfl⟩
  have hall : (pre ++ [x]).all GCounterCall.nonNegative = true := by
    rw [List.all_append, Bool.and_eq_true] at h
    exact h.1
  rw [List.all_append, Bool.and_eq_true] at hall
  obtain ⟨c1, h1⟩ := GCounter.calls_ok pre c hall.1
  have hx : x.nonNegative = true := by simpa using hall.2
  obtain ⟨c2, h2, hle⟩ := GCounter.call_mono c1 x hx
  refine ⟨c1, c2, h1, h2, ?_, hle.1, hle.2, Counts.total_le_of_le hle⟩
  unfold GCounter.calls at h1 ⊢
  rw [List.foldlM_append, h1]
  show List.foldlM GCounter.call c1 [x] = _
  rw [List.foldlM_cons, h2]
  rfl

/-- Witness for C12 on `sampleGCounterCalls`. -/
theorem GCounter.calls_monotone_witness :
    sampleGCounterCalls.all GCounterCall.nonNegative = true ∧
    ∀ pre x, pre ++ [x] <+: sampleGCounterCalls →
      ∃ c1 c2, (GCounter.new "A").calls pre = .ok c1 ∧ c1.call x = .ok c2 ∧
        (GCounter.new "A").calls (pre ++ [x]) = .ok c2 ∧
        c1.counts.dom ⊆ c2.counts.dom ∧
        (∀ k, c1.counts.val k ≤ c2.counts.val k) ∧
        c1.query ≤ c2.query :=
  ⟨by decide, GCounter.calls_monotone (GCounter.new "A") sampleGCounterCalls (by decide)⟩

/-! ## `disconnect` followed by `reconnect` -/

theorem set_eq_self_of_getElem? {A : Type} {l : List A} {i : Nat} {a : A}
    (h : l[i]? = some a) : l.set i a = l := by
  apply List.ext_getElem?
  intro j
  by_cases hj : i = j
  · subst hj
    rw [List.getElem?_set_self (getElem?_lt_of_eq_some h), h]
  · rw [List.getElem?_set_ne hj]

/-- What `disconnect(i)` then `reconnect(i)` does to the slots of an active
slot `i` (reference `p`) that has no entry in the offline set. -/
theorem disconnect_reconnect_slots (replicas : List (Option Ptr))
    (offline : List (Nat × Ptr)) (i : Nat) (p : Ptr)
    (hi : replicas[i]? = some (some p)) (h0 : entriesFor offline i = 0) :
    (emplace offline (i, p)).find? (fun e => e.1 == i) = some (i, p) ∧
    (replicas.set i none)[i]? = some none ∧
    (replicas.set i none).set i (some p) = replicas ∧
    (emplace offline (i, p)).erase (i, p) = offline := by
  have hlt : i < replicas.length := getElem?_lt_of_eq_some hi
  have hnot : (i, p) ∉ offline := fun hm => entriesFor_eq_zero.1 h0 _ hm rfl
  rw [emplace_of_no_entry offline i p h0]
  refine ⟨?_, List.getElem?_set_self hlt, ?_, ?_⟩
  · rw [List.find?_append, find?_of_entries_zero h0]
    simp
  · rw [List.set_set]
    exact set_eq_self_of_getElem? hi
  · rw [List.erase_append_right _ hnot, List.erase_cons_head, List.append_nil]

/-- The two calls on a `P2PNetwork` in a state meeting the hypothesis of
`disconnect_reconnect_slots`. -/
theorem P2PNetwork.disconnect_reconnect {α : Type} (net : P2PNetwork α) (i : Nat) (p : Ptr)
    (hi : net.replicas[i]? = some (some p)) (h0 : entriesFor net.offline_set i = 0) :
    ∃ net1, net.disconnect i = .ok net1 ∧ net1.replicas[i]? = some none ∧
      net1.reconnect i = .ok net := by
  obtain ⟨hf, hn, hs, he⟩ := disconnect_reconnect_slots net.replicas net.offline_set i p hi h0
  refine ⟨⟨net.replicas.set i none, emplace net.offline_set (i, p), net.store⟩, ?_, hn, ?_⟩
  · unfold P2PNetwork.disconnect
    rw [hi]
  · unfold P2PNetwork.reconnect
    simp only
    rw [hf]
    simp only
    rw [hn]
    simp only
    rw [hs, he]

/-- The two calls on a `StarNetwork` in a state meeting the hypothesis of
`disconnect_reconnect_slots`. -/
theorem StarNetwork.star_disconnect_reconnect {α : Type} (net : StarNetwork α) (i : Nat)
    (p : Ptr) (hi : net.replicas[i]? = some (some p))
    (h0 : entriesFor net.offline_set i = 0) :
    ∃ net1, net.disconnect i = .ok net1 ∧ net1.replicas[i]? = some none ∧
      net1.reconnect i = .ok net := by
  obtain ⟨hf, hn, hs, he⟩ := disconnect_reconnect_slots net.replicas net.offline_set i p hi h0
  refine ⟨⟨net.replicas.set i none, emplace net.offline_set (i, p), net.store⟩, ?_, hn, ?_⟩
  · unfold StarNetwork.disconnect
    rw [hi]
  · unfold StarNetwork.reconnect
    simp only
    rw [hf]
    simp only
    rw [hn]
    simp only
    rw [hs, he]

/-- C11. In both networks, for an active slot `i` (non-null reference `p`, no
entry in the offline set), `disconnect(i)` completes and leaves the slot
null, and the following `reconnect(i)` completes and returns exactly the
network as it was before: the same slot sequence (so `replicas[i]` holds `p`
again), the same offline set (no entry for `i`, every other entry as before)
and the same counters.  Every active slot is such a slot in every
`P2PNetwork` reached from the empty network by calls with valid indices, and
in every `StarNetwork` reached by calls with valid indices in which
`setServerReplica` is not called while slot 0 has an entry in the offline
set. -/
theorem disconnect_reconnect_restores {α S : Type} [SemilatticeSup S] [CRDT α]
    [JoinCRDT α S] :
    (∀ (net : P2PNetwork α) (i : Nat) (p : Ptr), net.replicas[i]? = some (some p) →
      entriesFor net.offline_set i = 0 →
      ∃ net1, net.disconnect i = .ok net1 ∧ net1.replicas[i]? = some none ∧
        net1.reconnect i = .ok net) ∧
    (∀ (net : StarNetwork α) (i : Nat) (p : Ptr), net.replicas[i]? = some (some p) →
      entriesFor net.offline_set i = 0 →
      ∃ net1, net.disconnect i = .ok net1 ∧ net1.replicas[i]? = some none ∧
        net1.reconnect i = .ok net) ∧
    (∀ (store : Ptr → α) (ops : List P2POp), P2POp.validCalls 0 ops = true →
      ∃ net, (P2PNetwork.empty store).run ops = .ok net ∧
        ∀ (i : Nat) (p : Ptr), net.replicas[i]? = some (some p) →
          ∃ net1, net.disconnect i = .ok net1 ∧ net1.replicas[i]? = some none ∧
            net1.reconnect i = .ok net) ∧
    (∀ (store : Ptr → α) (ops : List StarOp),
      (StarNetwork.empty store).admissibleRun ops = true →
      ∃ net, (StarNetwork.empty store).run ops = .ok net ∧
        ∀ (i : Nat) (p : Ptr), net.replicas[i]? = some (some p) →
          ∃ net1, net.disconnect i = .ok net1 ∧ net1.replicas[i]? = some none ∧
            net1.reconnect i = .ok net) := by
  refine ⟨P2PNetwork.disconnect_reconnect, StarNetwork.star_disconnect_reconnect, ?_, ?_⟩
  · intro store ops hv
    have h0 : (P2PNetwork.empty store).SlotsConsistent :=
      ⟨fun i hi => absurd hi (Nat.not_lt_zero i), fun e he => (by cases he)⟩
    obtain ⟨net, h1, h2⟩ := P2PNetwork.run_inv ops (P2PNetwork.empty store) hv h0
    refine ⟨net, h1, ?_⟩
    intro i p hi
    exact P2PNetwork.disconnect_reconnect net i p hi
      (SlotOK_entries_of_active (h2.1 i (getElem?_lt_of_eq_some hi)) hi)
  · intro store ops hv
    have h0 : (StarNetwork.empty store).SlotsConsistent false :=
      ⟨fun i hi _ => absurd hi (Nat.not_lt_zero i), fun e he => (by cases he),
        fun hf => (by cases hf), fun _ => ⟨Or.inl rfl, rfl⟩⟩
    obtain ⟨net, h1, h2⟩ := StarNetwork.star_run_inv ops (StarNetwork.empty store) false hv h0
    refine ⟨net, h1, ?_⟩
    intro i p hi
    have hne : net.replicas[i]? ≠ some none := by rw [hi]; simp
    obtain ⟨_, hok⟩ := StarNetwork.slot_in_scope h2 (getElem?_lt_of_eq_some hi) (Or.inl hne)
    exact StarNetwork.star_disconnect_reconnect net i p hi (SlotOK_entries_of_active hok hi)

/-- Witness for C11: slot 1 of `p2pExample`, the server slot of `starExample`,
and the networks reached by the calls of the two `GCounter` simulations. -/
theorem disconnect_reconnect_restores_witness :
    (∃ net1, p2pExample.disconnect 1 = .ok net1 ∧ net1.replicas[1]? = some none ∧
        net1.reconnect 1 = .ok p2pExample) ∧
    (∃ net1, starExample.disconnect 0 = .ok net1 ∧ net1.replicas[0]? = some none ∧
        net1.reconnect 0 = .ok starExample) ∧
    (∃ net, (P2PNetwork.empty exampleStore).run p2pScenarioCalls = .ok net ∧
        ∀ (i : Nat) (p : Ptr), net.replicas[i]? = some (some p) →
          ∃ net1, net.disconnect i = .ok net1 ∧ net1.replicas[i]? = some none ∧
            net1.reconnect i = .ok net) ∧
    (∃ net, (StarNetwork.empty exampleStore).run starScenarioCalls = .ok net ∧
        ∀ (i : Nat) (p : Ptr), net.replicas[i]? = some (some p) →
          ∃ net1, net.disconnect i = .ok net1 ∧ net1.replicas[i]? = some none ∧
            net1.reconnect i = .ok net) :=
  ⟨disconnect_reconnect_restores.1 p2pExample 1 1 rfl (by decide),
   disconnect_reconnect_restores.2.1 starExample 0 0 rfl (by decide),
   disconnect_reconnect_restores.2.2.1 exampleStore p2pScenarioCalls (by decide),
   disconnect_reconnect_restores.2.2.2 exampleStore starScenarioCalls (by decide)⟩

/-! ## Slot indices returned by `add` and `setServerReplica` -/

theorem foldlM_cons_ok {A B E : Type} {f : B → A → Except E B} {a : A} {l : List A}
    {b r : B} (h : (a :: l).foldlM f b = .ok r) :
    ∃ b1, f b a = .ok b1 ∧ l.foldlM f b1 = .ok r := by
  rw [List.foldlM_cons] at h
  cases hf : f b a with
  | error e =>
    rw [hf] at h
    cases h
  | ok b1 =>
    rw [hf] at h
    exact ⟨b1, rfl, h⟩

theorem P2PNetwork.disconnect_length_of_ok {α : Type} {net net' : P2PNetwork α} {i : Nat}
    (h : net.disconnect i = .ok net') : net'.replicas.length = net.replicas.length := by
  unfold P2PNetwork.disconnect at h
  split at h
  · cases h
  · cases h; rfl
  · cases h
    exact List.length_set _ _ _

theorem P2PNetwork.reconnect_length_of_ok {α : Type} {net net' : P2PNetwork α} {i : Nat}
    (h : net.reconnect i = .ok net') : net'.replicas.length = net.replicas.length := by
  unfold P2PNetwork.reconnect at h
  split at h
  · cases h; rfl
  · split at h
    · cases h
    · cases h
    · cases h
      exact List.length_set _ _ _

theorem P2PNetwork.broadcast_replicas_of_ok {α : Type} [CRDT α] {net net' : P2PNetwork α}
    {i : Nat} (h : net.broadcast i = .ok net') : net'.replicas = net.replicas := by
  unfold P2PNetwork.broadcast at h
  split at h
  · cases h
  · cases h; rfl
  · cases h; rfl

theorem P2PNetwork.broadcast_fold_replicas_of_ok {α : Type} [CRDT α] (is : List Nat)
    {net net' : P2PNetwork α}
    (h : is.foldlM (fun n i => n.broadcast i) net = .ok net') :
    net'.replicas = net.replicas := by
  induction is generalizing net with
  | nil => cases h; rfl
  | cons i is ih =>
    obtain ⟨n1, h1, h2⟩ := foldlM_cons_ok h
    rw [ih h2, P2PNetwork.broadcast_replicas_of_ok h1]

theorem P2PNetwork.step_length_of_ok {α : Type} [CRDT α] {net net' : P2PNetwork α}
    {op : P2POp} (h : net.step op = .ok net') :
    net'.replicas.length = net.replicas.length + if op.isAdd = true then 1 else 0 := by
  cases op with
  | add crdt =>
    cases h
    show (net.replicas ++ [some crdt]).length = _
    simp [P2POp.isAdd]
  | disconnect i => simpa [P2POp.isAdd] using P2PNetwork.disconnect_length_of_ok h
  | reconnect i => simpa [P2POp.isAdd] using P2PNetwork.reconnect_length_of_ok h
  | broadcast i =>
    have := P2PNetwork.broadcast_replicas_of_ok h
    simp [P2POp.isAdd, this]
  | broadcastAll =>
    have := P2PNetwork.broadcast_fold_replicas_of_ok _ h
    simp [P2POp.isAdd, this]

theorem P2PNetwork.run_length_of_ok {α : Type} [CRDT α] (ops : List P2POp)
    {net net' : P2PNetwork α} (h : net.run ops = .ok net') :
    net'.replicas.length = net.replicas.length + ops.countP P2POp.isAdd := by
  induction ops generalizing net with
  | nil => cases h; rfl
  | cons op ops ih =>
    obtain ⟨n1, h1, h2⟩ := foldlM_cons_ok h
    rw [ih h2, P2PNetwork.step_length_of_ok h1, List.countP_cons]
    omega

theorem StarNetwork.star_disconnect_length_of_ok {α : Type} {net net' : StarNetwork α}
    {i : Nat} (h : net.disconnect i = .ok net') :
    net'.replicas.length = net.replicas.length := by
  unfold StarNetwork.disconnect at h
  split at h
  · cases h
  · cases h; rfl
  · cases h
    exact List.length_set _ _ _

theorem StarNetwork.star_reconnect_length_of_ok {α : Type} {net net' : StarNetwork α}
    {i : Nat} (h : net.reconnect i = .ok net') :
    net'.replicas.length = net.replicas.length := by
  unfold StarNetwork.reconnect at h
  split at h
  · cases h; rfl
  · split at h
    · cases h
    · cases h
    · cases h
      exact List.length_set _ _ _

theorem StarNetwork.syncWithServer_replicas_of_ok {α : Type} [CRDT α]
    {net net' : StarNetwork α} {i : Nat} (h : net.syncWithServer i = .ok net') :
    net'.replicas = net.replicas ∧ net'.offline_set = net.offline_set := by
  unfold StarNetwork.syncWithServer at h
  split at h
  · cases h; exact ⟨rfl, rfl⟩
  · split at h
    · cases h
    · split at h
      · cases h
      · cases h; exact ⟨rfl, rfl⟩
      · split at h
        · cases h; exact ⟨rfl, rfl⟩
        · simp only at h
          split at h
          · cases h; exact ⟨rfl, rfl⟩
          · cases h

theorem StarNetwork.syncWithServer_fold_replicas_of_ok {α : Type} [CRDT α] (is : List Nat)
    {net net' : StarNetwork α}
    (h : is.foldlM (fun n i => n.syncWithServer i) net = .ok net') :
    net'.replicas = net.replicas ∧ net'.offline_set = net.offline_set := by
  induction is generalizing net with
  | nil => cases h; exact ⟨rfl, rfl⟩
  | cons i is ih =>
    obtain ⟨n1, h1, h2⟩ := foldlM_cons_ok h
    obtain ⟨a, b⟩ := ih h2
    obtain ⟨c, d⟩ := StarNetwork.syncWithServer_replicas_of_ok h1
    exact ⟨a.trans c, b.trans d⟩

/-- The number of slots of a `StarNetwork` after `k` calls of `add`. -/
theorem StarNetwork.step_size {α : Type} [CRDT α] {net net' : StarNetwork α}
    {op : StarOp} {k : Nat} (h : net.step op = .ok net')
    (hk : (k = 0 → net.replicas.length ≤ 1) ∧ (0 < k → net.replicas.length = k + 1)) :
    (k + (if op.isAdd = true then 1 else 0) = 0 → net'.replicas.length ≤ 1) ∧
    (0 < k + (if op.isAdd = true then 1 else 0) →
      net'.replicas.length = k + (if op.isAdd = true then 1 else 0) + 1) := by
  have hsame : op.isAdd = false → net'.replicas.length = net.replicas.length →
      (k + (if op.isAdd = true then 1 else 0) = 0 → net'.replicas.length ≤ 1) ∧
      (0 < k + (if op.isAdd = true then 1 else 0) →
        net'.replicas.length = k + (if op.isAdd = true then 1 else 0) + 1) := by
    intro h1 h2
    rw [h1, h2]
    simpa using hk
  cases op with
  | setServerReplica crdt =>
    cases h
    have hlen : (net.setServerReplica (some crdt)).1.replicas.length
        = if net.replicas = [] then 1 else net.replicas.length := by
      unfold StarNetwork.setServerReplica
      cases hr : net.replicas with
      | nil => simp
      | cons x xs => simp
    have hadd : StarOp.isAdd (.setServerReplica crdt) = false := rfl
    rw [hadd, hlen]
    by_cases hr : net.replicas = []
    · rw [if_pos hr]
      rw [hr] at hk
      constructor
      · intro _; exact Nat.le_refl 1
      · intro hpos
        have := hk.2 (by simpa using hpos)
        simp at this
    · rw [if_neg hr]
      simpa using hk
  | add crdt =>
    cases h
    have hlen : (net.add (some crdt)).1.replicas.length
        = if net.replicas = [] then 2 else net.replicas.length + 1 := by
      unfold StarNetwork.add
      cases hr : net.replicas with
      | nil => simp
      | cons x xs => simp
    have hadd : StarOp.isAdd (.add crdt) = true := rfl
    rw [hadd, hlen]
    simp only [if_true]
    by_cases hr : net.replicas = []
    · rw [if_pos hr]
      rw [hr] at hk
      constructor
      · intro h0; omega
      · intro _
        by_cases hk0 : k = 0
        · omega
        · have := hk.2 (by omega)
          simp at this
    · rw [if_neg hr]
      have hpos : 0 < net.replicas.length := List.length_pos.2 hr
      constructor
      · intro h0; omega
      · intro _
        by_cases hk0 : k = 0
        · have := hk.1 hk0
          omega
        · have := hk.2 (by omega)
          omega
  | disconnect i => exact hsame rfl (StarNetwork.star_disconnect_length_of_ok h)
  | reconnect i => exact hsame rfl (StarNetwork.star_reconnect_length_of_ok h)
  | syncWithServer i =>
    exact hsame rfl (by rw [(StarNetwork.syncWithServer_replicas_of_ok h).1])
  | syncAllReplicasToServer =>
    exact hsame rfl (by rw [(StarNetwork.syncWithServer_fold_replicas_of_ok _ h).1])

theorem StarNetwork.run_size {α : Type} [CRDT α] (ops : List StarOp)
    {net net' : StarNetwork α} {k : Nat} (h : net.run ops = .ok net')
    (hk : (k = 0 → net.replicas.length ≤ 1) ∧ (0 < k → net.replicas.length = k + 1)) :
    (k + ops.countP StarOp.isAdd = 0 → net'.replicas.length ≤ 1) ∧
    (0 < k + ops.countP StarOp.isAdd →
      net'.replicas.length = k + ops.countP StarOp.isAdd + 1) := by
  induction ops generalizing net k with
  | nil =>
    cases h
    simpa using hk
  | cons op ops ih =>
    obtain ⟨n1, h1, h2⟩ := foldlM_cons_ok h
    have := ih h2 (StarNetwork.step_size h1 hk)
    rw [List.countP_cons]
    have e : k + (List.countP StarOp.isAdd ops + if op.isAdd = true then 1 else 0)
        = k + (if op.isAdd = true then 1 else 0) + List.countP StarOp.isAdd ops := by omega
    rw [e]
    exact this

/-- C15. Slot indices are append-only and stable.  In a `P2PNetwork` reached
from the empty network by any completed calls, `add` appends one slot and
returns the number of earlier `add` calls (the n-th call, counting from 0,
returns n).  In a `StarNetwork` reached by any completed calls, with
`setServerReplica` called before, in between or never, `add` returns the number
of earlier `add` calls plus one (the n-th call, counting from 1, returns n),
the returned slot holds the new reference and the existing slots are kept.
`setServerReplica` always returns 0, and when slots exist it only overwrites
slot 0: the number of slots, every client slot, the offline set and the
counters are unchanged. -/
theorem add_returns_slot_index {α : Type} [CRDT α] :
    (∀ (store : Ptr → α) (ops : List P2POp) (net : P2PNetwork α) (crdt : Option Ptr),
      (P2PNetwork.empty store).run ops = .ok net →
      (net.add crdt).2 = ops.countP P2POp.isAdd ∧
      (net.add crdt).1.replicas = net.replicas ++ [crdt]) ∧
    (∀ (store : Ptr → α) (ops : List StarOp) (net : StarNetwork α) (crdt : Option Ptr),
      (StarNetwork.empty store).run ops = .ok net →
      (net.add crdt).2 = ops.countP StarOp.isAdd + 1 ∧
      (net.add crdt).1.replicas[(net.add crdt).2]? = some crdt ∧
      (∀ i, i < net.replicas.length → (net.add crdt).1.replicas[i]? = net.replicas[i]?)) ∧
    (∀ (net : StarNetwork α) (crdt : Option Ptr), (net.setServerReplica crdt).2 = 0) ∧
    (∀ (net : StarNetwork α) (crdt : Option Ptr), net.replicas ≠ [] →
      (net.setServerReplica crdt).1.replicas.length = net.replicas.length ∧
      (net.setServerReplica crdt).1.replicas[0]? = some crdt ∧
      (∀ i, 1 ≤ i → (net.setServerReplica crdt).1.replicas[i]? = net.replicas[i]?) ∧
      (net.setServerReplica crdt).1.offline_set = net.offline_set ∧
      (net.setServerReplica crdt).1.store = net.store) := by
  refine ⟨?_, ?_, ?_, ?_⟩
  · intro store ops net crdt h
    have hlen := P2PNetwork.run_length_of_ok ops h
    refine ⟨?_, rfl⟩
    show (net.replicas ++ [crdt]).length - 1 = _
    have h0 : (P2PNetwork.empty store).replicas.length = 0 := rfl
    rw [List.length_append, hlen, h0]
    simp
  · intro store ops net crdt h
    have hk := StarNetwork.run_size (k := 0) ops h
      ⟨fun _ => Nat.zero_le _, fun h0 => absurd h0 (Nat.lt_irrefl 0)⟩
    rw [Nat.zero_add] at hk
    cases hr : net.replicas with
    | nil =>
      have h0 : List.countP StarOp.isAdd ops = 0 := by
        by_contra hne
        have := hk.2 (Nat.pos_of_ne_zero hne)
        rw [hr] at this
        simp at this
      have hadd : (net.add crdt).1.replicas = [none, crdt] := by
        unfold StarNetwork.add
        rw [hr]
        rfl
      have hret : (net.add crdt).2 = 1 := by
        unfold StarNetwork.add
        rw [hr]
        rfl
      rw [hret, hadd, h0]
      refine ⟨rfl, rfl, ?_⟩
      intro i hi
      exact absurd hi (Nat.not_lt_zero i)
    | cons x xs =>
      have hadd : (net.add crdt).1.replicas = net.replicas ++ [crdt] := by
        unfold StarNetwork.add
        rw [hr]
        rfl
      have hret : (net.add crdt).2 = net.replicas.length := by
        unfold StarNetwork.add
        rw [hr]
        simp
      have hpos : 0 < net.replicas.length := by rw [hr]; exact Nat.succ_pos _
      rw [← hr, hret, hadd]
      refine ⟨?_, List.getElem?_concat_length _ _, ?_⟩
      · by_cases h0 : List.countP StarOp.isAdd ops = 0
        · have := hk.1 h0
          omega
        · have := hk.2 (Nat.pos_of_ne_zero h0)
          omega
      · intro i hi
        exact List.getElem?_append_left hi
  · intro net crdt
    unfold StarNetwork.setServerReplica
    split <;> rfl
  · intro net crdt hne
    have hset : (net.setServerReplica crdt).1
        = ⟨net.replicas.set 0 crdt, net.offline_set, net.store⟩ := by
      unfold StarNetwork.setServerReplica
      cases hr : net.replicas with
      | nil => exact absurd hr hne
      | cons x xs => rfl
    rw [hset]
    have hpos : 0 < net.replicas.length := List.length_pos.2 hne
    refine ⟨List.length_set _ _ _, List.getElem?_set_self hpos, ?_, rfl, rfl⟩
    intro i hi
    exact List.getElem?_set_ne (by omega)

/-- Witness for C15: the next `add` after the calls of the two `GCounter`
simulations, and `setServerReplica` on `starExample`. -/
theorem add_returns_slot_index_witness :
    (∃ net, (P2PNetwork.empty exampleStore).run p2pScenarioCalls = .ok net ∧
      (net.add (some 7)).2 = 3) ∧
    (∃ net, (StarNetwork.empty exampleStore).run starScenarioCalls = .ok net ∧
      (net.add (some 7)).2 = 4) ∧
    (starExample.setServerReplica (some 7)).2 = 0 ∧
    (starExample.setServerReplica (some 7)).1.replicas.length = starExample.replicas.length ∧
    (starExample.setServerReplica (some 7)).1.replicas[0]? = some (some 7) :=
  have hp : ∃ net, (P2PNetwork.empty exampleStore).run p2pScenarioCalls = .ok net :=
    (P2PNetwork.run_inv p2pScenarioCalls (P2PNetwork.empty exampleStore) (by decide)
      ⟨fun i hi => absurd hi (Nat.not_lt_zero i), fun e he => (by cases he)⟩).imp
      fun _ h => h.1
  have hs : ∃ net, (StarNetwork.empty exampleStore).run starScenarioCalls = .ok net :=
    (StarNetwork.star_run_inv starScenarioCalls (StarNetwork.empty exampleStore) false
      (by decide)
      ⟨fun i hi _ => absurd hi (Nat.not_lt_zero i), fun e he => (by cases he),
        fun hf => (by cases hf), fun _ => ⟨Or.inl rfl, rfl⟩⟩).imp
      fun _ h => h.1
  ⟨hp.imp fun net h =>
      ⟨h, (add_returns_slot_index.1 exampleStore p2pScenarioCalls net (some 7) h).1⟩,
   hs.imp fun net h =>
      ⟨h, (add_returns_slot_index.2.1 exampleStore starScenarioCalls net (some 7) h).1⟩,
   add_returns_slot_index.2.2.1 starExample (some 7),
   (add_returns_slot_index.2.2.2 starExample (some 7) (by decide)).1,
   (add_returns_slot_index.2.2.2 starExample (some 7) (by decide)).2.1⟩

/-! ## Snapshot exchange and sequential exchange -/

theorem sequentialExchangeClientFirst_state {α S : Type} [SemilatticeSup S] [CRDT α]
    [JoinCRDT α S] (store : Ptr → α) (pc ps : Ptr) :
    JoinCRDT.state (sequentialExchangeClientFirst store pc ps pc)
      = JoinCRDT.state (store pc) ⊔ JoinCRDT.state (store ps) ∧
    JoinCRDT.state (sequentialExchangeClientFirst store pc ps ps)
      = JoinCRDT.state (store pc) ⊔ JoinCRDT.state (store ps) ∧
    ∀ p, p ≠ pc → p ≠ ps → sequentialExchangeClientFirst store pc ps p = store p := by
  unfold sequentialExchangeClientFirst
  by_cases h : pc = ps
  · subst h
    simp [Function.update_same, JoinCRDT.state_merge]
    intro p hp
    exact Function.update_noteq hp _ _
  · have h' : ps ≠ pc := fun e => h e.symm
    refine ⟨?_, ?_, ?_⟩
    · simp only [Function.update_noteq h, Function.update_same, JoinCRDT.state_merge]
    · simp only [Function.update_noteq h', Function.update_same, JoinCRDT.state_merge]
      apply le_antisymm <;> simp
    · intro p h1 h2
      simp only [Function.update_noteq h2, Function.update_noteq h1]

theorem sequentialExchangeServerFirst_state {α S : Type} [SemilatticeSup S] [CRDT α]
    [JoinCRDT α S] (store : Ptr → α) (pc ps : Ptr) :
    JoinCRDT.state (sequentialExchangeServerFirst store pc ps pc)
      = JoinCRDT.state (store pc) ⊔ JoinCRDT.state (store ps) ∧
    JoinCRDT.state (sequentialExchangeServerFirst store pc ps ps)
      = JoinCRDT.state (store pc) ⊔ JoinCRDT.state (store ps) ∧
    ∀ p, p ≠ pc → p ≠ ps → sequentialExchangeServerFirst store pc ps p = store p := by
  unfold sequentialExchangeServerFirst
  by_cases h : pc = ps
  · subst h
    simp [Function.update_same, JoinCRDT.state_merge]
    intro p hp
    exact Function.update_noteq hp _ _
  · have h' : ps ≠ pc := fun e => h e.symm
    refine ⟨?_, ?_, ?_⟩
    · simp only [Function.update_noteq h, Function.update_same, JoinCRDT.state_merge]
      apply le_antisymm <;> simp
    · simp only [Function.update_noteq h', Function.update_same, JoinCRDT.state_merge]
      exact sup_comm _ _
    · intro p h1 h2
      simp only [Function.update_noteq h2, Function.update_noteq h1]

/-- C19. For an active client (slot `i ≥ 1`, counter `pc`) and an active server
(counter `ps`), `syncWithServer(i)`, which merges snapshots taken before any
mutation, completes and leaves every counter in the same state as the
sequential exchange without snapshots would, in either order:
`client.merge(server)` then `server.merge(client)`, or the reverse. -/
theorem StarNetwork.snapshot_exchange_eq_sequential {α S : Type} [SemilatticeSup S]
    [CRDT α] [JoinCRDT α S] (net : StarNetwork α) (i : Nat) (ps pc : Ptr) (hi : 1 ≤ i)
    (hs : net.replicas[0]? = some (some ps)) (hc : net.replicas[i]? = some (some pc)) :
    ∃ net', net.syncWithServer i = .ok net' ∧
      ∀ p, JoinCRDT.state (net'.store p)
          = JoinCRDT.state (sequentialExchangeClientFirst net.store pc ps p) ∧
        JoinCRDT.state (net'.store p)
          = JoinCRDT.state (sequentialExchangeServerFirst net.store pc ps p) := by
  obtain ⟨net', h1, _, _, h4, h5, _, h7⟩ :=
    StarNetwork.syncWithServer_effect net i ps pc hi hs hc
  obtain ⟨a1, a2, a3⟩ := sequentialExchangeClientFirst_state net.store pc ps
  obtain ⟨b1, b2, b3⟩ := sequentialExchangeServerFirst_state net.store pc ps
  refine ⟨net', h1, ?_⟩
  intro p
  by_cases hp1 : p = pc
  · subst hp1
    exact ⟨h4.trans a1.symm, h4.trans b1.symm⟩
  · by_cases hp2 : p = ps
    · subst hp2
      exact ⟨h5.trans a2.symm, h5.trans b2.symm⟩
    · rw [h7 p hp1 hp2, a3 p hp1 hp2, b3 p hp1 hp2]
      exact ⟨rfl, rfl⟩

/-- Witness for C19: client 1 of `starExample`. -/
theorem StarNetwork.snapshot_exchange_eq_sequential_witness :
    1 ≤ 1 ∧ starExample.replicas[0]? = some (some 0) ∧
    starExample.replicas[1]? = some (some 1) ∧
    ∃ net', starExample.syncWithServer 1 = .ok net' ∧
      ∀ p, JoinCRDT.state (net'.store p)
          = JoinCRDT.state (sequentialExchangeClientFirst starExample.store 1 0 p) ∧
        JoinCRDT.state (net'.store p)
          = JoinCRDT.state (sequentialExchangeServerFirst starExample.store 1 0 p) :=
  ⟨Nat.le_refl 1, rfl, rfl,
    StarNetwork.snapshot_exchange_eq_sequential starExample 1 0 1 (Nat.le_refl 1) rfl rfl⟩

/-! ## `countPartitions` of the two templates -/

/-- C20. The calls `setServerReplica(&s0)`, `disconnect(0)`,
`setServerReplica(&s1)`, `reconnect(0)` on an empty `StarNetwork` all use the
valid index 0.  The first three complete and leave slot 0 holding the new
server while the offline set still has the entry of the old one; `reconnect(0)`
then finds that entry with `replicas[0]` not null, so the assertion inside
`reconnect` fails. -/
theorem StarNetwork.reconnect_assertion_fails :
    ∃ net : StarNetwork GCounter,
      (StarNetwork.empty exampleStore).run
        [.setServerReplica 0, .disconnect 0, .setServerReplica 4] = .ok net ∧
      0 < net.replicas.length ∧
      net.offline_set.find? (fun e => e.1 == 0) = some (0, 0) ∧
      net.replicas[0]? = some (some 4) ∧
      net.reconnect 0 = .error .assertionFailed ∧
      (StarNetwork.empty exampleStore).run
        [.setServerReplica 0, .disconnect 0, .setServerReplica 4, .reconnect 0]
        = .error .assertionFailed :=
  ⟨⟨[some 4], [(0, 0)], exampleStore⟩, rfl, by decide, rfl, rfl, rfl, rfl⟩

/-! ## Converged networks are fixed points -/

theorem StoreStep.state_eq_of_converged {α S : Type} [SemilatticeSup S] [CRDT α]
    [JoinCRDT α S] {rs : List (Option Ptr)} {store store' : Ptr → α}
    (h : StoreStep rs store store')
    (hconv : ∀ p q, some p ∈ rs → some q ∈ rs →
      JoinCRDT.state (store p) = JoinCRDT.state (store q)) :
    ∀ q, JoinCRDT.state (store' q) = JoinCRDT.state (store q) := by
  intro q
  by_cases hq : some q ∈ rs
  · apply le_antisymm
    · exact h.2.2 (JoinCRDT.state (store q)) (fun p hp => le_of_eq (hconv p q hp hq)) q hq
    · exact h.2.1 q
  · rw [h.1 q hq]

/-- C18. If all active replicas of a network hold the same state, then
`broadcastAll()` (P2PNetwork) and `syncAllReplicasToServer()` (StarNetwork)
complete and leave the slots, the offline set, the state of every counter
(active or offline), every `query()` and `countPartitions()` unchanged. -/
theorem converged_fixed_point {α S : Type} [SemilatticeSup S] [CRDT α] [JoinCRDT α S] :
    (∀ net : P2PNetwork α,
      (∀ p q, some p ∈ net.replicas → some q ∈ net.replicas →
        JoinCRDT.state (net.store p) = JoinCRDT.state (net.store q)) →
      ∃ net', net.broadcastAll = .ok net' ∧
        net'.replicas = net.replicas ∧ net'.offline_set = net.offline_set ∧
        (∀ q, JoinCRDT.state (net'.store q) = JoinCRDT.state (net.store q)) ∧
        (∀ q, CRDT.query (net'.store q) = CRDT.query (net.store q)) ∧
        net'.countPartitions = net.countPartitions) ∧
    (∀ net : StarNetwork α,
      (∀ p q, some p ∈ net.replicas → some q ∈ net.replicas →
        JoinCRDT.state (net.store p) = JoinCRDT.state (net.store q)) →
      ∃ net', net.syncAllReplicasToServer = .ok net' ∧
        net'.replicas = net.replicas ∧ net'.offline_set = net.offline_set ∧
        (∀ q, JoinCRDT.state (net'.store q) = JoinCRDT.state (net.store q)) ∧
        (∀ q, CRDT.query (net'.store q) = CRDT.query (net.store q)) ∧
        net'.countPartitions = net.countPartitions) := by
  constructor
  · intro net hconv
    obtain ⟨net', h1, hr, ho, hs, _⟩ :=
      P2PNetwork.broadcast_fold (List.range net.replicas.length) net
        (fun i hi => List.mem_range.1 hi)
    have hst := StoreStep.state_eq_of_converged hs hconv
    have hq : ∀ q, CRDT.query (net'.store q) = CRDT.query (net.store q) :=
      fun q => JoinCRDT.query_congr _ _ (hst q)
    refine ⟨net', h1, hr, ho, hst, hq, ?_⟩
    unfold P2PNetwork.countPartitions
    simp only [hr, ho, hq]
  · intro net hconv
    obtain ⟨net', h1, hr, ho, hs, _⟩ := StarNetwork.syncAll_round net
    have hst := StoreStep.state_eq_of_converged hs hconv
    have hq : ∀ q, CRDT.query (net'.store q) = CRDT.query (net.store q) :=
      fun q => JoinCRDT.query_congr _ _ (hst q)
    refine ⟨net', h1, hr, ho, hst, hq, ?_⟩
    unfold StarNetwork.countPartitions
    simp only [hr, ho, hq]

theorem convergedStore_active (p q : Ptr)
    (hp : some p ∈ [some 0, some 1, none, some 3])
    (hq : some q ∈ [some 0, some 1, none, some 3]) :
    (convergedStore p).counts = (convergedStore q).counts := by
  have hp' : p = 0 ∨ p = 1 ∨ p = 3 := by simpa using hp
  have hq' : q = 0 ∨ q = 1 ∨ q = 3 := by simpa using hq
  rcases hp' with rfl | rfl | rfl <;> rcases hq' with rfl | rfl | rfl <;> rfl

/-- Witness for C18: the converged networks `convergedP2P` and `convergedStar`,
each with an offline replica that has not converged. -/
theorem converged_fixed_point_witness :
    (∀ p q, some p ∈ convergedP2P.replicas → some q ∈ convergedP2P.replicas →
      (convergedP2P.store p).counts = (convergedP2P.store q).counts) ∧
    (∃ net', convergedP2P.broadcastAll = .ok net' ∧
      net'.replicas = convergedP2P.replicas ∧
      net'.offline_set = convergedP2P.offline_set ∧
      (∀ q, (net'.store q).counts = (convergedP2P.store q).counts) ∧
      (∀ q, CRDT.query (net'.store q) = CRDT.query (convergedP2P.store q)) ∧
      net'.countPartitions = convergedP2P.countPartitions) ∧
    (∃ net', convergedStar.syncAllReplicasToServer = .ok net' ∧
      net'.replicas = convergedStar.replicas ∧
      net'.offline_set = convergedStar.offline_set ∧
      (∀ q, (net'.store q).counts = (convergedStar.store q).counts) ∧
      (∀ q, CRDT.query (net'.store q) = CRDT.query (convergedStar.store q)) ∧
      net'.countPartitions = convergedStar.countPartitions) :=
  ⟨convergedStore_active,
   (@converged_fixed_point GCounter Counts _ _ _).1 convergedP2P convergedStore_active,
   (@converged_fixed_point GCounter Counts _ _ _).2 convergedStar convergedStore_active⟩

/-! ## The PNCounter scenario in a peer-to-peer network -/

/-- C16 (as stated, refuted). Run as the specification states it, the scenario
gives the stated values up to A=14, B=4, C=14 with two partitions, but after
`reconnect(B)` and `broadcastAll()` the three replicas converge to query 14,
not 11. -/
theorem pn_scenario_counterexample :
    pnObserve (pnScenarioAsStated.take 6) = some ([-1, 2, 3], 3) ∧
    pnObserve (pnScenarioAsStated.take 7) = some ([4, 4, 4], 1) ∧
    pnObserve (pnScenarioAsStated.take 9) = some ([14, 4, 4], 2) ∧
    pnObserve (pnScenarioAsStated.take 10) = some ([14, 4, 14], 2) ∧
    pnObserve pnScenarioAsStated = some ([14, 14, 14], 1) ∧
    pnObserve pnScenarioAsStated ≠ some ([11, 11, 11], 1) := by
  decide

/-- C16 (amended). Three empty PNCounter replicas A, B, C in a P2PNetwork:
A−1, B+2, C+3 give query A=−1, B=2, C=3; after `broadcastAll()` all query 4;
after `disconnect(B)` and A+10, A queries 14; after `broadcastAll()` A=14,
B=4, C=14 with two partitions; after `B.increment(-3)` B queries 1 (still two
partitions); after `reconnect(B)` and `broadcastAll()` all three query 11.
The driver `simulatePNCountersInP2PNetwork`, which also calls `broadcast(a)`
before the first `broadcastAll()`, passes each of its assertions. -/
theorem pn_scenario :
    (pnObserve (pnScenarioWithDecrement.take 3) = some ([0, 0, 0], 1) ∧
     pnObserve (pnScenarioWithDecrement.take 6) = some ([-1, 2, 3], 3) ∧
     pnObserve (pnScenarioWithDecrement.take 7) = some ([4, 4, 4], 1) ∧
     pnObserve (pnScenarioWithDecrement.take 9) = some ([14, 4, 4], 2) ∧
     pnObserve (pnScenarioWithDecrement.take 10) = some ([14, 4, 14], 2) ∧
     pnObserve (pnScenarioWithDecrement.take 11) = some ([14, 1, 14], 2) ∧
     pnObserve pnScenarioWithDecrement = some ([11, 11, 11], 1)) ∧
    (pnObserve (simulatePNCountersInP2PNetwork.take 3) = some ([0, 0, 0], 1) ∧
     pnObserve (simulatePNCountersInP2PNetwork.take 6) = some ([-1, 2, 3], 3) ∧
     pnObserve (simulatePNCountersInP2PNetwork.take 7) = some ([-1, 1, 2], 3) ∧
     pnObserve (simulatePNCountersInP2PNetwork.take 8) = some ([4, 4, 4], 1) ∧
     pnObserve (simulatePNCountersInP2PNetwork.take 11) = some ([14, 4, 14], 2) ∧
     pnObserve (simulatePNCountersInP2PNetwork.take 12) = some ([14, 1, 14], 2) ∧
     pnObserve (simulatePNCountersInP2PNetwork.take 14) = some ([11, 11, 11], 1) ∧
     pnObserve simulatePNCountersInP2PNetwork = some ([-1, -1, -1], 1)) := by
  refine ⟨by decide, by decide, by decide, ?_, ?_, ?_, ?_, ?_, ?_⟩ <;> decide

/-! ## One `syncAllReplicasToServer` round -/

theorem joinAll_append_singleton {S : Type} [SemilatticeSup S] [OrderBot S] (l : List S)
    (x : S) : joinAll (l ++ [x]) = joinAll l ⊔ x := by
  induction l with
  | nil => simp [joinAll]
  | cons a l ih =>
    have h1 : joinAll (a :: l ++ [x]) = a ⊔ joinAll (l ++ [x]) := rfl
    have h2 : joinAll (a :: l) = a ⊔ joinAll l := rfl
    rw [h1, h2, ih, sup_assoc]

theorem nodup_getElem?_inj {ps : List Ptr} (h : ps.Nodup) {i j : Nat} {p : Ptr}
    (hi : ps[i]? = some p) (hj : ps[j]? = some p) : i = j := by
  obtain ⟨hi1, hi2⟩ := List.getElem?_eq_some.1 hi
  obtain ⟨hj1, hj2⟩ := List.getElem?_eq_some.1 hj
  exact (h.getElem_inj_iff).1 (hi2.trans hj2.symm)

theorem tail_range_succ (k : Nat) :
    (List.range (k + 2)).tail = (List.range (k + 1)).tail ++ [k + 1] := by
  rw [List.range_succ, List.tail_append_of_ne_nil]
  simp

/-- The state of the counters after the exchanges with clients `1 .. k` of a
round, when all slots are active and hold pairwise distinct counters. -/
theorem StarNetwork.sync_prefix {α S : Type} [SemilatticeSup S] [OrderBot S] [CRDT α]
    [JoinCRDT α S] (net : StarNetwork α) (ps : List Ptr)
    (hrs : net.replicas = ps.map some) (hnd : ps.Nodup) (k : Nat) (hk : k < ps.length) :
    ∃ net', ((List.range (k + 1)).tail).foldlM (fun n i => n.syncWithServer i) net
        = .ok net' ∧
      net'.replicas = net.replicas ∧ net'.offline_set = net.offline_set ∧
      (∀ p, ps[0]? = some p → JoinCRDT.state (net'.store p)
        = joinAll ((ps.take (k + 1)).map fun q => JoinCRDT.state (net.store q))) ∧
      (∀ i p, 1 ≤ i → i ≤ k → ps[i]? = some p → JoinCRDT.state (net'.store p)
        = joinAll ((ps.take (i + 1)).map fun q => JoinCRDT.state (net.store q))) ∧
      (∀ i p, k < i → ps[i]? = some p → net'.store p = net.store p) := by
  induction k with
  | zero =>
    refine ⟨net, rfl, rfl, rfl, ?_, ?_, fun _ _ _ _ => rfl⟩
    · intro p hp
      cases ps with
      | nil => cases hp
      | cons p0 rest =>
        have e : p0 = p := by simpa using hp
        subst e
        simp [joinAll]
    · intro i p h1 h2
      omega
  | succ k ih =>
    obtain ⟨net1, h1, hr1, ho1, hsv, hcl, hun⟩ := ih (by omega)
    obtain ⟨p0, hp0⟩ : ∃ p0, ps[0]? = some p0 :=
      ⟨_, List.getElem?_eq_getElem (by omega)⟩
    obtain ⟨pc, hpc⟩ : ∃ pc, ps[k + 1]? = some pc := ⟨_, List.getElem?_eq_getElem hk⟩
    have hs1 : net1.replicas[0]? = some (some p0) := by
      rw [hr1, hrs, List.getElem?_map, hp0]
      rfl
    have hc1 : net1.replicas[k + 1]? = some (some pc) := by
      rw [hr1, hrs, List.getElem?_map, hpc]
      rfl
    obtain ⟨net2, g1, g2, g3, g4, g5, _, g7⟩ :=
      StarNetwork.syncWithServer_effect net1 (k + 1) p0 pc (by omega) hs1 hc1
    have hJ : joinAll ((ps.take (k + 1 + 1)).map fun q => JoinCRDT.state (net.store q))
        = JoinCRDT.state (net1.store pc) ⊔ JoinCRDT.state (net1.store p0) := by
      rw [List.take_succ, hpc, hun (k + 1) pc (by omega) hpc, hsv p0 hp0]
      simp only [Option.toList, List.map_append, List.map_cons, List.map_nil]
      rw [joinAll_append_singleton, sup_comm]
    refine ⟨net2, ?_, g2.trans hr1, g3.trans ho1, ?_, ?_, ?_⟩
    · rw [tail_range_succ, List.foldlM_append, h1]
      show [k + 1].foldlM (fun n i => n.syncWithServer i) net1 = .ok net2
      rw [List.foldlM_cons, g1]
      rfl
    · intro p hp
      have e : p = p0 := by
        rw [hp0] at hp
        injection hp with hp
        exact hp.symm
      rw [e, g5, hJ]
    · intro i p hi1 hi2 hp
      by_cases hik : i = k + 1
      · subst hik
        have e : p = pc := by
          rw [hpc] at hp
          injection hp with hp
          exact hp.symm
        rw [e, g4, hJ]
      · have hne1 : p ≠ pc := fun e => hik (nodup_getElem?_inj hnd hp (e ▸ hpc))
        have hne0 : p ≠ p0 := fun e => by
          have := nodup_getElem?_inj hnd hp (e ▸ hp0)
          omega
        rw [g7 p hne1 hne0]
        exact hcl i p hi1 (by omega) hp
    · intro i p hi hp
      have hne1 : p ≠ pc := fun e => by
        have := nodup_getElem?_inj hnd hp (e ▸ hpc)
        omega
      have hne0 : p ≠ p0 := fun e => by
        have := nodup_getElem?_inj hnd hp (e ▸ hp0)
        omega
      rw [g7 p hne1 hne0]
      exact hun i p (by omega) hp

/-- C17. In a StarNetwork whose slots all hold pairwise distinct counters (slot
0 the server, slots `1 .. N` the clients, all online), one
`syncAllReplicasToServer()` round completes; afterwards the server and the
last client hold the join of all pre-round states, and client `i` holds the
join of the pre-round states of the server and of clients `1 .. i`.  For the
queries server=0, A=1, B=2, C=3 the round gives 6, 1, 3, 6, so
`countPartitions()` is 3 and not 1. -/
theorem StarNetwork.one_round_states {α S : Type} [SemilatticeSup S] [OrderBot S]
    [CRDT α] [JoinCRDT α S] :
    (∀ (net : StarNetwork α) (ps : List Ptr),
      net.replicas = ps.map some → ps.Nodup → 0 < ps.length →
      ∃ net', net.syncAllReplicasToServer = .ok net' ∧
        net'.replicas = net.replicas ∧ net'.offline_set = net.offline_set ∧
        (∀ p, ps[0]? = some p → JoinCRDT.state (net'.store p)
          = joinAll (ps.map fun q => JoinCRDT.state (net.store q))) ∧
        (∀ p, ps[ps.length - 1]? = some p → JoinCRDT.state (net'.store p)
          = joinAll (ps.map fun q => JoinCRDT.state (net.store q))) ∧
        (∀ i p, 1 ≤ i → ps[i]? = some p → JoinCRDT.state (net'.store p)
          = joinAll ((ps.take (i + 1)).map fun q => JoinCRDT.state (net.store q)))) ∧
    ([0, 1, 2, 3].map (fun p => CRDT.query (roundStar.store p)) = [0, 1, 2, 3] ∧
      roundStar.countPartitions = 4 ∧
      ∃ net', roundStar.syncAllReplicasToServer = .ok net' ∧
        [0, 1, 2, 3].map (fun p => CRDT.query (net'.store p)) = [6, 1, 3, 6] ∧
        net'.countPartitions = 3 ∧ net'.countPartitions ≠ 1) := by
  constructor
  · intro net ps hrs hnd hpos
    obtain ⟨net', h1, h2, h3, h4, h5, _⟩ :=
      StarNetwork.sync_prefix net ps hrs hnd (ps.length - 1) (by omega)
    have hlen : net.replicas.length = ps.length - 1 + 1 := by
      rw [hrs, List.length_map]
      omega
    have htake : ps.take (ps.length - 1 + 1) = ps := List.take_of_length_le (by omega)
    rw [htake] at h4
    have hcl : ∀ i p, 1 ≤ i → ps[i]? = some p → JoinCRDT.state (net'.store p)
        = joinAll ((ps.take (i + 1)).map fun q => JoinCRDT.state (net.store q)) := by
      intro i p hi hp
      obtain ⟨hlt, _⟩ := List.getElem?_eq_some.1 hp
      exact h5 i p hi (by omega) hp
    refine ⟨net', ?_, h2, h3, h4, ?_, hcl⟩
    · unfold StarNetwork.syncAllReplicasToServer
      rw [hlen]
      exact h1
    · intro p hp
      by_cases hone : ps.length - 1 = 0
      · rw [hone] at hp
        exact h4 p hp
      · have := hcl (ps.length - 1) p (by omega) hp
        rw [htake] at this
        exact this
  · exact ⟨by decide, by decide, _, rfl, by decide, by decide, by decide⟩

/-- Witness for C17: `roundStar`, whose slots hold the counters 0, 1, 2, 3. -/
theorem StarNetwork.one_round_states_witness :
    roundStar.replicas = [0, 1, 2, 3].map some ∧ [0, 1, 2, 3].Nodup ∧
    0 < [0, 1, 2, 3].length ∧
    ∃ net', roundStar.syncAllReplicasToServer = .ok net' ∧
      net'.replicas = roundStar.replicas ∧ net'.offline_set = roundStar.offline_set ∧
      (∀ p, [0, 1, 2, 3][0]? = some p → (net'.store p).counts
        = joinAll ([0, 1, 2, 3].map fun q => (roundStar.store q).counts)) ∧
      (∀ p, [0, 1, 2, 3][[0, 1, 2, 3].length - 1]? = some p → (net'.store p).counts
        = joinAll ([0, 1, 2, 3].map fun q => (roundStar.store q).counts)) ∧
      (∀ i p, 1 ≤ i → [0, 1, 2, 3][i]? = some p → (net'.store p).counts
        = joinAll (([0, 1, 2, 3].take (i + 1)).map fun q => (roundStar.store q).counts)) :=
  ⟨rfl, by decide, by decide,
    (@StarNetwork.one_round_states GCounter Counts _ _ _ _).1 roundStar [0, 1, 2, 3] rfl
      (by decide) (by decide)⟩

end Crdt
